import Mathlib

/-!
# Verification of the BlueSkyMap graph / job-pipeline core

A shallow embedding, in Lean 4, of the graph construction, community
detection, mutual-connection resolution and job-pipeline logic of the
BlueSkyMap server, together with theorems settling the specification
claims about those components.

Conventions used throughout the embedding:
* JavaScript strings are `String`; the JS truthiness test on a string
  (`if (!s)`) is `jsTruthy` (`s ≠ ""`; an absent/undefined string field is
  modelled as `""` where the source only ever tests it for truthiness).
* JS `Map` objects are association lists in insertion order with in-place
  update, JS `Set` objects are duplicate-free lists in insertion order.
* JS numbers used for modularity / density computations are modelled as
  exact rationals `Rat`; integer-valued counters are `Nat`; millisecond
  timestamps are `Int`.
-/

/-- JS truthiness of a string: `""` (and an absent field, which we encode as
`""`) is falsy, everything else truthy. -/
def jsTruthy (s : String) : Bool := s ≠ ""

/-- `a || b` on JS strings: `b` when `a` is falsy. -/
def jsOrElse (a b : String) : String := if a = "" then b else a

/-- The `data` record of a `NetworkNode` (shared type `User`). -/
structure UserData where
  did : String
  handle : String
  displayName : String
deriving DecidableEq, Repr

/-- Shared type `NetworkNode` (`{id, type: 'user', data}`; the constant
`type: 'user'` tag carries no information and is omitted). -/
structure NetworkNode where
  id : String
  data : UserData
deriving DecidableEq, Repr

/-- Edge kinds of shared type `NetworkEdge` (`'follows' | 'mutual'`);
`mutual` is a Lean keyword, hence the constructor name `mutualE`. -/
inductive EdgeType where
  | follows
  | mutualE
deriving DecidableEq, Repr

/-- Shared type `NetworkEdge` (`{source, target, type}`). -/
structure NetworkEdge where
  source : String
  target : String
  type : EdgeType
deriving DecidableEq, Repr

/-- Shared type `NetworkData`. -/
structure NetworkData where
  nodes : List NetworkNode
  edges : List NetworkEdge
deriving DecidableEq, Repr

/-- Connection kinds of shared type `ConnectionType`. -/
inductive ConnectionType where
  | follower
  | following
  | mutualC
deriving DecidableEq, Repr

/-- The profile snapshot carried by a `ConnectionData` record. Only `handle`
and `displayName` are ever read by the embedded functions (`createGraph`);
the remaining `UserProfile` fields (avatar, counts, `indexedAt`) are not
read by any embedded code path and are omitted. -/
structure ProfileData where
  handle : String
  displayName : String
deriving DecidableEq, Repr

/-- Shared type `ConnectionData`. A record with a missing identifier is one
whose `connectionId` is falsy (`""`); `profile` may be absent (`none`). -/
structure ConnectionData where
  userId : String
  connectionId : String
  type : ConnectionType
  profile : Option ProfileData
deriving DecidableEq, Repr

/-- `connection.profile?.handle || ''`. -/
def profileHandle : Option ProfileData → String
  | some p => p.handle
  | none => ""

/-- `connection.profile?.displayName || ''`. -/
def profileDisplayName : Option ProfileData → String
  | some p => p.displayName
  | none => ""

/-- An `additionalEdges` entry of `createGraph` (`{source, target}`). -/
structure RawEdge where
  source : String
  target : String
deriving DecidableEq, Repr

namespace GraphProcessor

/-- `EDGE_WEIGHTS` of `GraphProcessor`: `follows = 1`, `mutual = 2`. -/
def EDGE_WEIGHTS : EdgeType → Nat
  | .follows => 1
  | .mutualE => 2

/-- `nodes.has(id)` on the insertion-ordered node map (keyed by `id`). -/
def hasNode (nodes : List NetworkNode) (id : String) : Bool :=
  nodes.any (fun n => n.id = id)

/-- The `addNode` helper of `createGraph`: skip a record whose
`connectionId` is falsy, otherwise insert a node keyed by `connectionId`
if none exists yet. -/
def addNode (nodes : List NetworkNode) (connection : ConnectionData) : List NetworkNode :=
  if !(jsTruthy connection.connectionId) then nodes
  else if hasNode nodes connection.connectionId then nodes
  else nodes ++ [{ id := connection.connectionId,
                   data := { did := connection.connectionId,
                             handle := profileHandle connection.profile,
                             displayName := profileDisplayName connection.profile } }]

/-- `GraphProcessor.createGraph`. Mirrors the source: the `followers` and
`following` parameters are accepted but never used to build nodes or edges
(the source only logs their lengths); nodes come from the central user plus
the `mutuals` list; edges are the central-user-to-mutual edges plus the
`additionalEdges` whose endpoints exist; the output edge list is filtered a
second time against the node set. -/
def createGraph (userId : String) (followers following mutuals : List ConnectionData)
    (additionalEdges : Option (List RawEdge)) : NetworkData :=
  -- `nodes.set(userId, centralNode)`
  let centralNode : NetworkNode :=
    { id := userId,
      data := { did := userId,
                handle := jsOrElse (profileHandle ((mutuals.head?.map ConnectionData.profile).getD none)) userId,
                displayName := jsOrElse (profileDisplayName ((mutuals.head?.map ConnectionData.profile).getD none)) userId } }
  let nodes0 : List NetworkNode := [centralNode]
  -- `mutuals.forEach(mutual => { if (!mutual?.connectionId) return; addNode(mutual); })`
  let nodes1 := mutuals.foldl
    (fun ns mutualConn =>
      if !(jsTruthy mutualConn.connectionId) then ns else addNode ns mutualConn)
    nodes0
  -- `mutuals.forEach(...)` pushing `(userId, connectionId, 'mutual')` edges
  let edges1 : List NetworkEdge := mutuals.foldl
    (fun es mutualConn =>
      if !(jsTruthy mutualConn.connectionId) || !(hasNode nodes1 mutualConn.connectionId) then es
      else es ++ [{ source := userId, target := mutualConn.connectionId, type := .mutualE }])
    []
  -- `additionalEdges.forEach(...)`: drop an edge missing an endpoint or
  -- referencing a non-existent node
  let edges2 : List NetworkEdge :=
    match additionalEdges with
    | none => edges1
    | some aes => aes.foldl
        (fun es e =>
          if !(jsTruthy e.source) || !(jsTruthy e.target) then es
          else if !(hasNode nodes1 e.source) || !(hasNode nodes1 e.target) then es
          else es ++ [{ source := e.source, target := e.target, type := .mutualE }])
        edges1
  -- final defensive filter of the output edge set
  { nodes := nodes1,
    edges := edges2.filter (fun e =>
      jsTruthy e.source && jsTruthy e.target && hasNode nodes1 e.source && hasNode nodes1 e.target) }

end GraphProcessor

/-- A community record (shared type `Community`): `centralNodes` starts empty
and `metrics` at zero, both filled in by the final pass of
`detectCommunities`. -/
structure Metrics where
  density : Rat
  cohesion : Rat
deriving DecidableEq, Repr

structure Community where
  id : String
  size : Nat
  members : List String
  centralNodes : List String := []
  metrics : Metrics
deriving DecidableEq, Repr

/-- The `nodeMap : Map<string, number>` of `detectCommunities`: node id to
community index, as an insertion-ordered association list. -/
abbrev NodeMap := List (String × Nat)

/-- `Map.get` (first binding of the key). -/
def mapGet : NodeMap → String → Option Nat
  | [], _ => none
  | (a, b) :: rest, k => if a = k then some b else mapGet rest k

/-- `Map.set`: overwrite in place, or append a fresh binding. -/
def mapSet : NodeMap → String → Nat → NodeMap
  | [], k, v => [(k, v)]
  | (a, b) :: rest, k, v => if a = k then (k, v) :: rest else (a, b) :: mapSet rest k v

/-- The `adjacencyMap : Map<string, Set<string>>` of `detectCommunities`:
each key maps to its JS `Set` of neighbors, a duplicate-free list in
insertion order. -/
abbrev AdjMap := List (String × List String)

/-- `adjacencyMap.has(k)`. -/
def adjHas (m : AdjMap) (k : String) : Bool := m.any (fun p => p.1 = k)

/-- `adjacencyMap.get(k)` (with `|| new Set()` for a missing key, used by
the callers that default to an empty set). -/
def adjGet (m : AdjMap) (k : String) : List String :=
  match m.find? (fun p => p.1 = k) with
  | some p => p.2
  | none => []

/-- `if (!adjacencyMap.has(k)) adjacencyMap.set(k, new Set())`. -/
def adjEnsure (m : AdjMap) (k : String) : AdjMap :=
  if adjHas m k then m else m ++ [(k, [])]

/-- JS `Set.prototype.add`: idempotent insertion at the end. -/
def setAdd (s : List String) (x : String) : List String :=
  if x ∈ s then s else s ++ [x]

/-- `adjacencyMap.get(k)!.add(v)` (the key is ensured present before every
call in the source). -/
def adjAdd (m : AdjMap) (k v : String) : AdjMap :=
  m.map (fun p => if p.1 = k then (p.1, setAdd p.2 v) else p)

namespace GraphProcessor

/-- The "weighted" adjacency-map construction of `detectCommunities`
(source lines 240-264): for each edge with truthy endpoints, ensure both
endpoint keys exist, then run the `for (let i = 0; i < weight; i++)` loop
adding each endpoint to the other's neighbor `Set`. -/
def buildAdjacencyMap (edges : List NetworkEdge) : AdjMap :=
  edges.foldl
    (fun m edge =>
      if !(jsTruthy edge.source) || !(jsTruthy edge.target) then m
      else
        let weight := EDGE_WEIGHTS edge.type
        let m1 := adjEnsure (adjEnsure m edge.source) edge.target
        (List.range weight).foldl
          (fun acc _ => adjAdd (adjAdd acc edge.source edge.target) edge.target edge.source)
          m1)
    []

/-- `degreeMap.get(nodeId) || 0`: the degree map of `calculateModularity` is
built from the adjacency map by `neighbors.size`, with a missing node
defaulting to 0. -/
def degreeOf (adjacencyMap : AdjMap) (nodeId : String) : Nat :=
  (adjGet adjacencyMap nodeId).length

/-- `GraphProcessor.calculateModularity` (the `nodeMap` parameter is also
unused in the source). Divisions are exact rational arithmetic; the source
divides IEEE doubles. `totalEdges` is at least 1 whenever this is called
from `detectCommunities` (which returns early on an empty edge list), so
the rational convention `x / 0 = 0` is never exercised by the theorems
below. -/
def calculateModularity (communities : List Community) (_nodeMap : NodeMap)
    (adjacencyMap : AdjMap) (totalEdges : Nat) : Rat :=
  let modularity : Rat := communities.foldl
    (fun acc community =>
      community.members.foldl
        (fun acc2 nodeI =>
          community.members.foldl
            (fun acc3 nodeJ =>
              if nodeI = nodeJ then acc3
              else
                let actualConnection : Rat :=
                  if (adjGet adjacencyMap nodeI).contains nodeJ then 1 else 0
                let expectedConnection : Rat :=
                  (degreeOf adjacencyMap nodeI : Rat) * (degreeOf adjacencyMap nodeJ : Rat)
                    / (2 * (totalEdges : Rat))
                acc3 + (actualConnection - expectedConnection))
            acc2)
        acc)
    0
  modularity / (2 * (totalEdges : Rat))

/-- `communities[i].size`. The source indexes the array directly and would
throw on an out-of-bounds index; in every state reachable under the
hypotheses of the theorems below the index is in bounds, where this
equals the source's value. -/
def communitySize (communities : List Community) (i : Nat) : Nat :=
  ((communities.get? i).map Community.size).getD 0

/-- `GraphProcessor.calculateModularityGain`. -/
def calculateModularityGain (node : String) (fromCommunity toCommunity : Nat)
    (communities : List Community) (nodeMap : NodeMap)
    (adjacencyMap : AdjMap) (totalEdges : Nat) : Rat :=
  let neighbors := adjGet adjacencyMap node
  let connectionsTo := (neighbors.filter (fun n => mapGet nodeMap n = some toCommunity)).length
  let connectionsFrom := (neighbors.filter (fun n => mapGet nodeMap n = some fromCommunity)).length
  let fromSize : Rat := (communitySize communities fromCommunity : Rat) - 1
  let toSize : Rat := (communitySize communities toCommunity : Rat) + 1
  (connectionsTo : Rat) / (totalEdges : Rat) -
    (connectionsFrom : Rat) / (totalEdges : Rat) *
      (fromSize * toSize / (2 * (totalEdges : Rat)) ^ 2)

/-- The mutable state of the community-detection loop. -/
structure DetectState where
  communities : List Community
  nodeMap : NodeMap
  changed : Bool
deriving Repr

/-- `neighborCommunities.set(c, (neighborCommunities.get(c) || 0) + 1)`:
bump a counter in an insertion-ordered counting map. -/
def bumpCount : List (Nat × Nat) → Nat → List (Nat × Nat)
  | [], k => [(k, 1)]
  | (a, b) :: rest, k => if a = k then (a, b + 1) :: rest else (a, b) :: bumpCount rest k

/-- The neighbor-community counting map of one node's move step. Neighbors
without a community (`nodeMap.get` undefined) are skipped. -/
def neighborCommunityCounts (nodeMap : NodeMap) (neighbors : List String) : List (Nat × Nat) :=
  neighbors.foldl
    (fun acc neighborId =>
      match mapGet nodeMap neighborId with
      | none => acc
      | some c => bumpCount acc c)
    []

/-- The best-community fold of one node's move step: starting from
`(currentCommunity, 0)`, take each neighbor community except the current
one and keep it iff its modularity gain strictly exceeds the best so far. -/
def pickBestCommunity (node : String) (currentCommunity : Nat)
    (communities : List Community) (nodeMap : NodeMap)
    (adjacencyMap : AdjMap) (totalEdges : Nat)
    (counts : List (Nat × Nat)) : Nat × Rat :=
  counts.foldl
    (fun best p =>
      if p.1 = currentCommunity then best
      else
        let gain := calculateModularityGain node currentCommunity p.1
          communities nodeMap adjacencyMap totalEdges
        if best.2 < gain then (p.1, gain) else best)
    (currentCommunity, 0)

/-- The move of a node from its current community to the best one: filter
the node id (and any falsy id) out of the current community's member list,
push it onto the best community's member list, update both sizes, repoint
the node map and flag the pass as changed. Both community lookups carry the
source's `?.members` guards: a missing community skips that half of the
move. -/
def moveNode (st : DetectState) (nodeId : String) (currentCommunity bestCommunity : Nat) :
    DetectState :=
  let st1 :=
    match st.communities.get? currentCommunity with
    | some c =>
      let members1 := c.members.filter (fun id => jsTruthy id && id ≠ nodeId)
      { st with communities :=
          st.communities.set currentCommunity { c with members := members1, size := members1.length } }
    | none => st
  match st1.communities.get? bestCommunity with
  | some c =>
    let members2 := c.members ++ [nodeId]
    { st1 with
      communities :=
        st1.communities.set bestCommunity { c with members := members2, size := members2.length },
      nodeMap := mapSet st1.nodeMap nodeId bestCommunity,
      changed := true }
  | none => st1

/-- The per-node body of one pass of the detection loop. -/
def nodeStep (adjacencyMap : AdjMap) (totalEdges : Nat)
    (st : DetectState) (node : NetworkNode) : DetectState :=
  if !(jsTruthy node.id) then st
  else
    match mapGet st.nodeMap node.id with
    | none => st
    | some currentCommunity =>
      let neighbors := adjGet adjacencyMap node.id
      let counts := neighborCommunityCounts st.nodeMap neighbors
      let best := pickBestCommunity node.id currentCommunity
        st.communities st.nodeMap adjacencyMap totalEdges counts
      if best.1 ≠ currentCommunity ∧ 0 < best.2 then
        moveNode st node.id currentCommunity best.1
      else st

/-- The initial state: each node with a truthy id goes into its own
singleton community (`community-<index>`, where `<index>` is the node's
position in the full node list), and the node map points it there. -/
def initState (nodes : List NetworkNode) : DetectState :=
  nodes.enum.foldl
    (fun st p =>
      if !(jsTruthy p.2.id) then st
      else
        { st with
          nodeMap := mapSet st.nodeMap p.2.id p.1,
          communities := st.communities ++
            [{ id := "community-" ++ toString p.1, size := 1, members := [p.2.id],
               metrics := { density := 0, cohesion := 0 } }] })
    { communities := [], nodeMap := [], changed := true }

def MAX_ITERATIONS : Nat := 10

/-- The `while (changed && iterations < MAX_ITERATIONS)` loop: one pass
moves every node in node order, then the modularity of the new partition is
compared with the best seen; the loop stops on the pass count, on an
unchanged pass, or on a non-improving modularity (keeping the state of the
pass that just ran). -/
def detectLoop (nodes : List NetworkNode) (adjacencyMap : AdjMap) (totalEdges : Nat) :
    Nat → Rat → DetectState → DetectState
  | 0, _, st => st
  | fuel + 1, bestModularity, st =>
    if st.changed = false then st
    else
      let st1 := nodes.foldl (nodeStep adjacencyMap totalEdges) { st with changed := false }
      let newModularity := calculateModularity st1.communities st1.nodeMap adjacencyMap totalEdges
      if newModularity ≤ bestModularity then st1
      else detectLoop nodes adjacencyMap totalEdges fuel newModularity st1

/-- The final metrics / central-nodes pass over one surviving community. -/
def communityMetrics (graph : NetworkData) (adjacencyMap : AdjMap)
    (community : Community) : Community :=
  let possibleConnections : Rat := (community.size * (community.size - 1) : Nat) / 2
  let actualTwice : Nat := community.members.foldl
    (fun acc member =>
      if !(jsTruthy member) then acc
      else acc + ((adjGet adjacencyMap member).filter
        (fun n => jsTruthy n && community.members.contains n)).length)
    0
  let actualConnections : Rat := (actualTwice : Rat) / 2
  let mutualConnections : Nat := (graph.edges.filter
    (fun e => e.type = EdgeType.mutualE && jsTruthy e.source && jsTruthy e.target &&
      community.members.contains e.source && community.members.contains e.target)).length
  let metrics : Metrics :=
    { density := if 0 < possibleConnections then actualConnections / possibleConnections else 0,
      cohesion := if 0 < actualConnections then (mutualConnections : Rat) / actualConnections else 0 }
  let nodeDegrees : List (String × Nat) := community.members.foldl
    (fun acc member =>
      if !(jsTruthy member) then acc
      else mapSet acc member ((adjGet adjacencyMap member).filter
        (fun n => jsTruthy n && community.members.contains n)).length)
    []
  -- a stable descending sort on the degree entries (the source uses the
  -- stable JS `Array.prototype.sort` with comparator `b[1] - a[1]`)
  let sorted := nodeDegrees.foldl (fun acc x => insertDesc x acc) []
  { community with metrics := metrics, centralNodes := (sorted.take 3).map Prod.fst }
where
  /-- stable descending insertion: place `x` after every entry with a
  degree at least as large. -/
  insertDesc (x : String × Nat) : List (String × Nat) → List (String × Nat)
    | [] => [x]
    | y :: ys => if x.2 ≤ y.2 then y :: insertDesc x ys else x :: y :: ys

/-- `GraphProcessor.detectCommunities`. -/
def detectCommunities (graph : NetworkData) : List Community :=
  if graph.nodes.isEmpty || graph.edges.isEmpty then []
  else
    let st0 := initState graph.nodes
    let adjacencyMap := buildAdjacencyMap graph.edges
    let totalEdges := graph.edges.length
    let bestModularity := calculateModularity st0.communities st0.nodeMap adjacencyMap totalEdges
    let stF := detectLoop graph.nodes adjacencyMap totalEdges MAX_ITERATIONS bestModularity st0
    ((stF.communities.filter (fun c => 0 < c.size)).map (communityMetrics graph adjacencyMap))

end GraphProcessor

/-- `BskyFollower` (atproto interfaces). Only `did` and `handle` are read by
the embedded functions; `displayName` is kept as representative optional
data, the numeric count fields are never read and are omitted. -/
structure BskyFollower where
  did : String
  handle : String
  displayName : Option String := none
deriving DecidableEq, Repr

namespace NetworkAnalysisService

/-- `NetworkAnalysisService.findMutualConnections`:
`followers.filter(follower => following.some(follow => follow.did === follower.did))`.
The same filter-with-some expression is the mutual computation of
`NetworkAnalyzer.processJob` (on its validated lists) and of the `/network`
route handler. -/
def findMutualConnections (followers following : List BskyFollower) : List BskyFollower :=
  followers.filter (fun follower => following.any (fun follow => follow.did = follower.did))

/-- The set of identifiers (`did`s) of a connection list. -/
def didSet (l : List BskyFollower) : Finset String := (l.map BskyFollower.did).toFinset

end NetworkAnalysisService

namespace MutualChecker

/-- `MutualChecker.areMutuallyConnected`. The rate-limited
`getFollowing` fetch is a parameter: it returns a follower list or raises
(`Except.error`). The source wraps the whole body in `try/catch` and
returns `false` from the catch, so every error path yields `false`; the
second fetch happens only when the first list contains `user2` (compared by
handle). -/
def areMutuallyConnected (fetchFollowing : String → Except String (List BskyFollower))
    (user1 user2 : String) : Bool :=
  match fetchFollowing user1 with
  | .error _ => false
  | .ok user1Following =>
    let user1FollowsUser2 := user1Following.any (fun f => f.handle = user2)
    if !user1FollowsUser2 then false
    else
      match fetchFollowing user2 with
      | .error _ => false
      | .ok user2Following =>
        let user2FollowsUser1 := user2Following.any (fun f => f.handle = user1)
        user1FollowsUser2 && user2FollowsUser1

end MutualChecker

/-! ## The job pipeline

Two generations of the job processor coexist in the source: an
`EventEmitter`-based class (called `JobProcessorEvents` here) whose
`createJob` enforces the daily refresh quota and whose `processNextJob`
does the select / run / retry cycle, and a service class (called
`JobProcessorService` here) whose `createJob` deduplicates active jobs per
handle and whose `processJob` has its own retry handling. Both are
embedded, next to the `Job` model's methods and statics.

The Mongo store is a list of jobs in insertion order; `findOne` without a
sort is the first match, `findOne` with a sort is the minimum under the
sort order with ties kept in insertion order. Timestamps are milliseconds
as `Int`. The `Job.ts` status enum has members `pending / processing /
completed / failed / rateLimited`; the service class additionally
references a (missing) `IN_PROGRESS` member, embedded as the distinct
status `inProgress`. The untyped `data` payload of a job is not modelled:
no embedded code path reads it. -/

inductive JobStatus where
  | pending
  | processing
  | completed
  | failed
  | rateLimited
  | inProgress
deriving DecidableEq, Repr

/-- The `Job` document. `id` stands for the Mongo `_id`; `error`,
`nextAttempt`, `startedAt`, `completedAt` and `result` are optional exactly
as in the schema; schema defaults are `attempts = 0`, `maxAttempts = 3`,
`refreshCount = 0`, `priority = 0`. -/
structure Job where
  id : Nat
  userId : String
  handle : String
  status : JobStatus
  priority : Int := 0
  error : Option String := none
  attempts : Nat := 0
  maxAttempts : Nat := 3
  nextAttempt : Option Int := none
  startedAt : Option Int := none
  completedAt : Option Int := none
  result : Option Nat := none
  refreshCount : Nat := 0
  lastRefreshDate : Int
  createdAt : Int
deriving DecidableEq, Repr

namespace QUEUE_LIMITS

def MAX_CONCURRENT_JOBS : Nat := 10

def DAILY_REFRESH_LIMIT : Nat := 5

def PRIORITY_HANDLE : String := "gui.do"

end QUEUE_LIMITS

/-- `Number.MAX_SAFE_INTEGER`, the priority given to priority-handle jobs. -/
def MAX_SAFE_INTEGER : Int := 9007199254740991

/-- `today.setUTCHours(0, 0, 0, 0)` applied to the current time: the exact
UTC midnight opening the current UTC calendar day. -/
def utcMidnight (t : Int) : Int := t - t.emod 86400000

/-- `job.save()`: write the document back by `_id`. -/
def saveJob (store : List Job) (j : Job) : List Job :=
  store.map (fun x => if x.id = j.id then j else x)

/-- `jobSchema.methods.fail`. -/
def Job.fail (j : Job) (now : Int) (error : String) : Job :=
  { j with status := .failed, error := some error, completedAt := some now }

/-- `jobSchema.methods.complete`. -/
def Job.complete (j : Job) (now : Int) (resultId : Option Nat) : Job :=
  { j with status := .completed, completedAt := some now,
           result := match resultId with | some r => some r | none => j.result }

/-- `jobSchema.methods.incrementRefreshCount`: reset the counter to 1 when
the last refresh was before today's UTC midnight, else bump it; stamp the
refresh date with the current time. -/
def Job.incrementRefreshCount (j : Job) (now : Int) : Job :=
  let today := utcMidnight now
  let rc := if j.lastRefreshDate < today then 1 else j.refreshCount + 1
  { j with refreshCount := rc, lastRefreshDate := now }

/-- `findOne` with a sort order: the minimum of the matching documents
under `better` (a strict precedence test), ties resolved to the earliest
stored document. -/
def findOneSorted (store : List Job) (pred : Job → Bool) (better : Job → Job → Bool) :
    Option Job :=
  (store.filter pred).foldl
    (fun acc j =>
      match acc with
      | none => some j
      | some b => if better j b then some j else some b)
    none

/-- The `{priority: -1, createdAt: 1}` sort order. -/
def prioThenCreated (a b : Job) : Bool :=
  b.priority < a.priority || (a.priority = b.priority && a.createdAt < b.createdAt)

/-- `getJobUpdateQuery()` of `Job.ts`: set the document processing, stamp
`startedAt` and bump `attempts`. -/
def getJobUpdateQuery (j : Job) (now : Int) : Job :=
  { j with status := .processing, startedAt := some now, attempts := j.attempts + 1 }

/-- `jobSchema.statics.findNextJob`: refuse when the processing count is at
the concurrency cap; otherwise first serve the oldest pending
priority-handle job (no quota condition on this branch), then the best
regular pending job within the daily refresh quota (or from a previous
UTC day). Returns the claimed (updated) document and the updated store. -/
def findNextJob (store : List Job) (now : Int) : Option Job × List Job :=
  let processingCount := (store.filter (fun j => j.status = JobStatus.processing)).length
  if QUEUE_LIMITS.MAX_CONCURRENT_JOBS ≤ processingCount then (none, store)
  else
    match findOneSorted store
        (fun j => j.status = JobStatus.pending && j.handle = QUEUE_LIMITS.PRIORITY_HANDLE)
        (fun a b => a.createdAt < b.createdAt) with
    | some j =>
      let j1 := getJobUpdateQuery j now
      (some j1, saveJob store j1)
    | none =>
      let today := utcMidnight now
      match findOneSorted store
          (fun j => j.status = JobStatus.pending && j.handle ≠ QUEUE_LIMITS.PRIORITY_HANDLE &&
            -- the `refreshCount: {$exists: false}` arm of the `$or` never
            -- matches: the schema default materialises the field on every
            -- document; the two live arms follow
            ((today ≤ j.lastRefreshDate && j.refreshCount < QUEUE_LIMITS.DAILY_REFRESH_LIMIT) ||
              j.lastRefreshDate < today))
          prioThenCreated with
      | some j =>
        let j1 := getJobUpdateQuery j now
        (some j1, saveJob store j1)
      | none => (none, store)

namespace JobProcessorEvents

/-- `createJob` of the `EventEmitter`-based processor: for a non-priority
handle, look for a job record of the handle refreshed today (UTC); when its
refresh count has reached the daily limit, create, save and return a job
already in the `rateLimited` state with the quota error (it is not handed
to the scheduler). Otherwise create a pending job, a priority-handle job
getting `Number.MAX_SAFE_INTEGER` priority. `nextId` is the fresh `_id`
Mongo assigns. -/
def createJob (store : List Job) (now : Int) (nextId : Nat)
    (userId handle : String) (priority : Int) : Job × List Job :=
  let newJob : Job :=
    { id := nextId, userId := userId, handle := handle, status := .pending,
      priority := if handle = QUEUE_LIMITS.PRIORITY_HANDLE then MAX_SAFE_INTEGER else priority,
      lastRefreshDate := now, createdAt := now }
  if handle ≠ QUEUE_LIMITS.PRIORITY_HANDLE then
    let today := utcMidnight now
    match store.find? (fun j => j.handle = handle && today ≤ j.lastRefreshDate) with
    | some existingJob =>
      if QUEUE_LIMITS.DAILY_REFRESH_LIMIT ≤ existingJob.refreshCount then
        let job : Job :=
          { id := nextId, userId := userId, handle := handle, status := .rateLimited,
            priority := priority, error := some "Daily refresh limit exceeded",
            lastRefreshDate := now, createdAt := now }
        (job, store ++ [job])
      else (newJob, store ++ [newJob])
    | none => (newJob, store ++ [newJob])
  else (newJob, store ++ [newJob])

/-- The `findOne` filter of `processNextJob`: pending, with no retry time
or one that has passed. -/
def pendingSelectable (now : Int) (j : Job) : Bool :=
  j.status = JobStatus.pending &&
    (match j.nextAttempt with | none => true | some t => t ≤ now)

/-- The job selection of `processNextJob`
(`findOne({status: PENDING, $or: [...]}, null, {sort: {priority: -1, createdAt: 1}})`). -/
def findNext (store : List Job) (now : Int) : Option Job :=
  findOneSorted store (pendingSelectable now) prioThenCreated

/-- `getUserRefreshCount`: the refresh count of the handle's job record
refreshed today, or 0. -/
def getUserRefreshCount (store : List Job) (now : Int) (handle : String) : Nat :=
  let today := utcMidnight now
  match store.find? (fun j => j.handle = handle && today ≤ j.lastRefreshDate) with
  | some job => job.refreshCount
  | none => 0

/-- The claim step of `processNextJob`: mark the job processing, stamp
`startedAt` and bump `attempts`. -/
def claimJob (currentJob : Job) (now : Int) : Job :=
  { currentJob with
    status := JobStatus.processing, startedAt := some now,
    attempts := currentJob.attempts + 1 }

/-- The catch block of `processNextJob`: while `attempts < maxAttempts`,
return the job to pending with a `2^(attempts - 1)` second backoff
(`backoffDelay = Math.pow(2, currentJob.attempts - 1) * 1000` ms),
else fail it terminally with the error recorded. -/
def retryOrFail (j2 : Job) (now : Int) (msg : String) : Job :=
  if j2.attempts < j2.maxAttempts then
    let backoffDelay : Int := 2 ^ (j2.attempts - 1) * 1000
    { j2 with nextAttempt := some (now + backoffDelay), status := JobStatus.pending }
  else Job.fail j2 now msg

/-- `processNextJob` of the `EventEmitter`-based processor, one tick: claim
the next selectable pending job, bump its refresh count, run the handler;
on success complete the job, on a throw apply `retryOrFail`. The handler
is the registered job handler (a missing handler in the source throws into
the same catch). -/
def processNextJob (store : List Job) (now : Int)
    (handler : Job → Except String (Option Nat)) : List Job :=
  match findNext store now with
  | none => store
  | some currentJob =>
    let j1 := claimJob currentJob now
    let store1 := saveJob store j1
    let j2 := Job.incrementRefreshCount j1 now
    let store2 := saveJob store1 j2
    match handler j2 with
    | .ok result => saveJob store2 (Job.complete j2 now result)
    | .error msg => saveJob store2 (retryOrFail j2 now msg)

end JobProcessorEvents

namespace JobProcessorService

/-- The `findOne` filter of `getCurrentJob`: a job of the handle in the
`pending` or `inProgress` state. -/
def isActiveFor (handle : String) (j : Job) : Bool :=
  j.handle = handle && (j.status = JobStatus.pending || j.status = JobStatus.inProgress)

/-- `getCurrentJob`: the handle's job in the `pending` or `inProgress`
state, if any. -/
def getCurrentJob (store : List Job) (handle : String) : Option Job :=
  store.find? (isActiveFor handle)

/-- `createJob` of the service processor: when an active (pending or
in-progress) job already exists for the handle, return it instead of
creating a new one (resetting it to pending first when it has been in
progress for over five minutes); otherwise create and save a fresh pending
job. (`QUEUE_LIMITS.MAX_ATTEMPTS` referenced by the source does not exist
in `Job.ts`; the schema default 3 applies.) -/
def createJob (store : List Job) (now : Int) (nextId : Nat)
    (userId handle : String) (priority : Int) : Job × List Job :=
  match getCurrentJob store handle with
  | some existingJob =>
    if existingJob.status = JobStatus.inProgress then
      let fiveMinutesAgo := now - 5 * 60 * 1000
      match existingJob.startedAt with
      | some s =>
        if s < fiveMinutesAgo then
          let reset := { existingJob with status := JobStatus.pending, startedAt := none }
          (reset, saveJob store reset)
        else (existingJob, store)
      | none => (existingJob, store)
    else (existingJob, store)
  | none =>
    let job : Job :=
      { id := nextId, userId := userId, handle := handle, status := .pending,
        priority := priority, lastRefreshDate := now, createdAt := now }
    (job, store ++ [job])

/-- The number of active (pending or in-progress) jobs of a handle. -/
def activeCount (store : List Job) (handle : String) : Nat :=
  (store.filter (isActiveFor handle)).length

/-- The claim step of the service processor's `processJob`: mark the job
in progress, stamp `startedAt` and bump `attempts`. -/
def markInProgress (job : Job) (now : Int) : Job :=
  { job with
    status := JobStatus.inProgress, startedAt := some now, attempts := job.attempts + 1 }

/-- The catch block of the service processor's `processJob`: fail
terminally at `attempts >= maxAttempts`, else stamp a `2^attempts` second
backoff (`backoff = Math.pow(2, job.attempts) * 1000` ms) — with the
status set to `FAILED`, not pending. -/
def failOrBackoff (j1 : Job) (now : Int) (msg : String) : Job :=
  if j1.maxAttempts ≤ j1.attempts then Job.fail j1 now msg
  else
    let backoff : Int := 2 ^ j1.attempts * 1000
    { j1 with nextAttempt := some (now + backoff), status := JobStatus.failed }

/-- `processJob` of the service processor: mark the job in progress, run
the handler; on success complete, on a throw apply `failOrBackoff`.
Returns the final job document and store. (The in-process
`processingJobs` set guards re-entrancy only and is not part of this
sequential model.) -/
def processJob (store : List Job) (now : Int)
    (handler : Job → Except String (Option Nat)) (job : Job) : Job × List Job :=
  let j1 := markInProgress job now
  let store1 := saveJob store j1
  match handler j1 with
  | .ok result =>
    let jc := Job.complete j1 now result
    (jc, saveJob store1 jc)
  | .error msg =>
    let jr := failOrBackoff j1 now msg
    (jr, saveJob store1 jr)

end JobProcessorService

/-! ## Concrete fixtures used by the closed theorems and witnesses -/

/-- A follower-list connection record with identifier `"x"`. -/
def followerRecordX : ConnectionData :=
  { userId := "u", connectionId := "x", type := ConnectionType.follower, profile := none }

/-- A mutuals-list connection record with identifier `"x"`. -/
def mutualRecordX : ConnectionData :=
  { userId := "u", connectionId := "x", type := ConnectionType.mutualC, profile := none }

def nodeA : NetworkNode := { id := "a", data := { did := "a", handle := "a", displayName := "" } }

def nodeB : NetworkNode := { id := "b", data := { did := "b", handle := "b", displayName := "" } }

def edgeAB : NetworkEdge := { source := "a", target := "b", type := EdgeType.mutualE }

/-- A single node, no edges. -/
def gSingle : NetworkData := { nodes := [nodeA], edges := [] }

/-- Two nodes joined by one mutual edge. -/
def gPair : NetworkData := { nodes := [nodeA, nodeB], edges := [edgeAB] }

def bobFollower : BskyFollower := { did := "d-bob", handle := "bob" }

/-- A fetch function that succeeds for `"alice"` (who follows bob) and
raises for every other handle. -/
def demoFetch : String → Except String (List BskyFollower) :=
  fun u => if u = "alice" then Except.ok [bobFollower] else Except.error "boom"

/-- A fresh pending job for the non-priority handle `"h"`. -/
def jobH : Job :=
  { id := 0, userId := "u", handle := "h", status := JobStatus.pending,
    lastRefreshDate := 0, createdAt := 0 }

/-- A pending job for the priority handle, younger and with a lower
priority value than `jRich`. -/
def jPrio : Job :=
  { id := 1, userId := "u", handle := "gui.do", status := JobStatus.pending,
    priority := 0, lastRefreshDate := 0, createdAt := 50 }

/-- A pending job for a regular handle with a very high priority value and
an older creation time. -/
def jRich : Job :=
  { id := 2, userId := "v", handle := "z", status := JobStatus.pending,
    priority := 99999, lastRefreshDate := 0, createdAt := 0 }

/-- A job record of handle `"h"` whose refresh count has reached the daily
limit, refreshed at the UTC midnight opening day 1. -/
def jQuota : Job :=
  { id := 3, userId := "u", handle := "h", status := JobStatus.completed,
    refreshCount := 5, lastRefreshDate := 86400000, createdAt := 86400000 }

/-- A handler that always throws. -/
def hFail : Job → Except String (Option Nat) := fun _ => Except.error "boom"

/-- A handler that throws on the first two attempts of a job and succeeds
on the third. -/
def hScen : Job → Except String (Option Nat) :=
  fun j => if j.attempts < 3 then Except.error "boom" else Except.ok none

/-! ## Verification-side definitions -/

/-- The concatenation of all member lists of a community list. The
partition claim states that this is a permutation of the node ids. -/
def commJoin (l : List Community) : List String := (l.map Community.members).flatten

/-- The invariant of the community-detection state: the members of all
communities form a permutation of the node ids, every community's `size`
field is its member count, and the node map points every mapped id at a
community in bounds that contains it. -/
def PartInv (nodeIds : List String) (st : GraphProcessor.DetectState) : Prop :=
  (commJoin st.communities).Perm nodeIds
  ∧ (∀ c ∈ st.communities, c.size = c.members.length)
  ∧ (∀ id i, mapGet st.nodeMap id = some i →
      ∃ c, st.communities.get? i = some c ∧ id ∈ c.members)

/-! ## Helper lemmas -/

section Lemmas

open GraphProcessor

/-- JS `Set.add` keeps the neighbor list duplicate-free. -/
lemma setAdd_nodup {s : List String} {x : String} (h : s.Nodup) : (setAdd s x).Nodup := by
  unfold setAdd
  split
  · exact h
  · next hx => simp [List.nodup_append, h, hx]

/-- Well-formedness of an adjacency map: every neighbor set is
duplicate-free. -/
def AdjWF (m : AdjMap) : Prop := ∀ p ∈ m, p.2.Nodup

lemma adjEnsure_wf {m : AdjMap} {k : String} (h : AdjWF m) : AdjWF (adjEnsure m k) := by
  unfold adjEnsure
  split
  · exact h
  · intro p hp
    rcases List.mem_append.1 hp with hp | hp
    · exact h p hp
    · simp only [List.mem_singleton] at hp
      subst hp
      exact List.nodup_nil

lemma adjAdd_wf {m : AdjMap} {k v : String} (h : AdjWF m) : AdjWF (adjAdd m k v) := by
  unfold adjAdd
  intro p hp
  rcases List.mem_map.1 hp with ⟨q, hq, rfl⟩
  split
  · exact setAdd_nodup (h q hq)
  · exact h q hq

lemma adjGet_nodup {m : AdjMap} (h : AdjWF m) (k : String) : (adjGet m k).Nodup := by
  unfold adjGet
  split
  · next p hp =>
    exact h p (List.mem_of_find?_eq_some hp)
  · exact List.nodup_nil

lemma buildAdjacencyMap_wf (edges : List NetworkEdge) : AdjWF (buildAdjacencyMap edges) := by
  unfold buildAdjacencyMap
  generalize hstart : ([] : AdjMap) = m0
  have h0 : AdjWF m0 := by
    subst hstart
    intro p hp
    simp at hp
  clear hstart
  induction edges generalizing m0 with
  | nil => simpa using h0
  | cons e rest ih =>
    simp only [List.foldl_cons]
    apply ih
    split
    · exact h0
    · have hens : AdjWF (adjEnsure (adjEnsure m0 e.source) e.target) :=
        adjEnsure_wf (adjEnsure_wf h0)
      generalize (adjEnsure (adjEnsure m0 e.source) e.target) = m1 at hens
      generalize List.range (EDGE_WEIGHTS e.type) = w
      induction w generalizing m1 with
      | nil => simpa using hens
      | cons i is ihw =>
        simp only [List.foldl_cons]
        exact ihw _ (adjAdd_wf (adjAdd_wf hens))

end Lemmas

/-! ## Claim theorems -/

/-- **C1.** The claim states that the adjacency structure built by
`detectCommunities` is a *multiset* of weighted neighbors, a weight-`w`
edge inserting the neighbor `w` times so that a mutual edge contributes 2
to every neighbor count. The code is wrong: the structure is a
`Map<string, Set<string>>`, so the `for (let i = 0; i < weight; i++)`
insertion loop collapses — at the single mutual edge `a—b` the weight is 2
but `b` occurs exactly once in `a`'s neighbor list, and in general every
neighbor list is duplicate-free, so a mutual edge can never contribute
more than 1 to the neighbor counts feeding modularity, density and
central-node degrees. -/
theorem C1_adjacency_weight_collapses :
    GraphProcessor.EDGE_WEIGHTS EdgeType.mutualE = 2
    ∧ adjGet (GraphProcessor.buildAdjacencyMap
        [{ source := "a", target := "b", type := EdgeType.mutualE }]) "a" = ["b"]
    ∧ (adjGet (GraphProcessor.buildAdjacencyMap
        [{ source := "a", target := "b", type := EdgeType.mutualE }]) "a").count "b" = 1
    ∧ ∀ (edges : List NetworkEdge) (k : String),
        (adjGet (GraphProcessor.buildAdjacencyMap edges) k).Nodup :=
  ⟨rfl, rfl, rfl, fun edges k => adjGet_nodup (buildAdjacencyMap_wf edges) k⟩

section GraphBuilderLemmas

open GraphProcessor

/-- `hasNode` is membership of the id among the node ids. -/
lemma hasNode_iff (ns : List NetworkNode) (x : String) :
    hasNode ns x = true ↔ x ∈ ns.map NetworkNode.id := by
  unfold hasNode
  rw [List.any_eq_true]
  constructor
  · rintro ⟨n, hn, hx⟩
    rw [decide_eq_true_iff] at hx
    exact List.mem_map.2 ⟨n, hn, hx⟩
  · intro h
    rcases List.mem_map.1 h with ⟨n, hn, rfl⟩
    exact ⟨n, hn, by simp⟩

lemma addNode_ids_nodup {ns : List NetworkNode} {c : ConnectionData}
    (h : (ns.map NetworkNode.id).Nodup) : ((addNode ns c).map NetworkNode.id).Nodup := by
  unfold addNode
  split
  · exact h
  · split
    · exact h
    · next hhas =>
      have hx : c.connectionId ∉ ns.map NetworkNode.id := by
        intro hmem
        exact hhas ((hasNode_iff ns c.connectionId).2 hmem)
      simp [List.nodup_append, h, hx]

lemma addNode_ids_mono {ns : List NetworkNode} {c : ConnectionData} {x : String}
    (h : x ∈ ns.map NetworkNode.id) : x ∈ (addNode ns c).map NetworkNode.id := by
  unfold addNode
  split
  · exact h
  · split
    · exact h
    · simpa using Or.inl h

lemma addNode_ids_self {ns : List NetworkNode} {c : ConnectionData}
    (h : jsTruthy c.connectionId = true) :
    c.connectionId ∈ (addNode ns c).map NetworkNode.id := by
  unfold addNode
  rw [h]
  simp only [Bool.not_true, Bool.false_eq_true, if_false]
  split
  · next hhas => exact (hasNode_iff ns c.connectionId).1 hhas
  · simp

/-- The node-building fold of `createGraph`. -/
def mutualsFold (mutuals : List ConnectionData) (ns : List NetworkNode) : List NetworkNode :=
  mutuals.foldl
    (fun acc mutualConn =>
      if !(jsTruthy mutualConn.connectionId) then acc else addNode acc mutualConn)
    ns

lemma mutualsFold_nodup (mutuals : List ConnectionData) (ns : List NetworkNode)
    (h : (ns.map NetworkNode.id).Nodup) :
    ((mutualsFold mutuals ns).map NetworkNode.id).Nodup := by
  induction mutuals generalizing ns with
  | nil => simpa [mutualsFold] using h
  | cons c rest ih =>
    simp only [mutualsFold, List.foldl_cons]
    split
    · exact ih ns h
    · exact ih _ (addNode_ids_nodup h)

lemma mutualsFold_mono (mutuals : List ConnectionData) (ns : List NetworkNode) {x : String}
    (h : x ∈ ns.map NetworkNode.id) : x ∈ (mutualsFold mutuals ns).map NetworkNode.id := by
  induction mutuals generalizing ns with
  | nil => simpa [mutualsFold] using h
  | cons c rest ih =>
    simp only [mutualsFold, List.foldl_cons]
    split
    · exact ih ns h
    · exact ih _ (addNode_ids_mono h)

lemma mutualsFold_mem (mutuals : List ConnectionData) (ns : List NetworkNode)
    {c : ConnectionData} (hc : c ∈ mutuals) (ht : jsTruthy c.connectionId = true) :
    c.connectionId ∈ (mutualsFold mutuals ns).map NetworkNode.id := by
  induction mutuals generalizing ns with
  | nil => cases hc
  | cons d rest ih =>
    simp only [mutualsFold, List.foldl_cons]
    rcases List.mem_cons.1 hc with rfl | hc
    · rw [ht]
      simp only [Bool.not_true, Bool.false_eq_true, if_false]
      exact mutualsFold_mono rest _ (addNode_ids_self ht)
    · split
      · exact ih _ hc
      · exact ih _ hc

/-- `hasNode` depends only on the node ids. -/
lemma hasNode_eq_ids (ns : List NetworkNode) (x : String) :
    hasNode ns x = (ns.map NetworkNode.id).any (fun i => i = x) := by
  unfold hasNode
  induction ns with
  | nil => rfl
  | cons n rest ih => simp [ih]

/-- The node ids produced by `addNode` depend only on the incoming node
ids (the carried profile data does not influence them). -/
lemma addNode_ids_eq {ns ns' : List NetworkNode} (c : ConnectionData)
    (h : ns.map NetworkNode.id = ns'.map NetworkNode.id) :
    (addNode ns c).map NetworkNode.id = (addNode ns' c).map NetworkNode.id := by
  unfold addNode
  by_cases ht : (!jsTruthy c.connectionId) = true
  · rw [if_pos ht, if_pos ht]
    exact h
  · rw [if_neg ht, if_neg ht]
    have hh : hasNode ns c.connectionId = hasNode ns' c.connectionId := by
      rw [hasNode_eq_ids, hasNode_eq_ids, h]
    by_cases h2 : hasNode ns c.connectionId = true
    · rw [if_pos h2, if_pos (hh ▸ h2)]
      exact h
    · rw [if_neg h2, if_neg (fun hx => h2 (hh ▸ hx))]
      rw [List.map_append, List.map_append, h]

lemma mutualsFold_ids_eq (m : List ConnectionData) {ns ns' : List NetworkNode}
    (h : ns.map NetworkNode.id = ns'.map NetworkNode.id) :
    (mutualsFold m ns).map NetworkNode.id = (mutualsFold m ns').map NetworkNode.id := by
  induction m generalizing ns ns' with
  | nil => simpa [mutualsFold] using h
  | cons c rest ih =>
    simp only [mutualsFold, List.foldl_cons]
    split
    · exact ih h
    · exact ih (addNode_ids_eq c h)

/-- Skipping records with a falsy identifier is the same as filtering them
out up front. -/
lemma mutualsFold_filter (mutuals : List ConnectionData) (ns : List NetworkNode) :
    mutualsFold (mutuals.filter (fun c => jsTruthy c.connectionId)) ns =
      mutualsFold mutuals ns := by
  induction mutuals generalizing ns with
  | nil => rfl
  | cons c rest ih =>
    by_cases h : jsTruthy c.connectionId = true
    · rw [List.filter_cons, if_pos h]
      simp only [mutualsFold, List.foldl_cons, h]
      exact ih (addNode ns c)
    · rw [List.filter_cons, if_neg h]
      have h2 : jsTruthy c.connectionId = false := Bool.eq_false_iff.2 h
      simp only [mutualsFold, List.foldl_cons, h2]
      simpa [mutualsFold] using ih ns

end GraphBuilderLemmas

/-- **C7 counterexample.** A connection record with identifier `"x"`
appearing (only) in the `followers` list yields *no* node: the output node
set of `createGraph` is just the central user. The claim, which promises a
node for every distinct `connectionId` in the followers, following and
mutuals lists, is false at this input. -/
theorem C7_counterexample :
    (GraphProcessor.createGraph "u" [followerRecordX] [] [] none).nodes.map NetworkNode.id = ["u"]
    ∧ "x" ∈ [followerRecordX].map ConnectionData.connectionId
    ∧ "x" ∉ (GraphProcessor.createGraph "u" [followerRecordX] [] [] none).nodes.map
        NetworkNode.id := by
  refine ⟨rfl, by simp [followerRecordX], by decide⟩

/-- **C7 (amended).** For every call to the Graph Builder, each distinct
`connectionId` appearing in the *mutuals* list yields exactly one node in
the output graph (the node ids are duplicate-free and every mutual record
with an identifier contributes its id); the `followers` and `following`
lists are ignored entirely by graph construction; and any connection
record missing an identifier is skipped without aborting construction
(dropping such records up front changes nothing about the node-id set). -/
theorem C7_one_node_per_mutual_id (userId : String)
    (followers following mutuals : List ConnectionData)
    (additionalEdges : Option (List RawEdge)) :
    ((GraphProcessor.createGraph userId followers following mutuals additionalEdges).nodes.map
        NetworkNode.id).Nodup
    ∧ (∀ c ∈ mutuals, jsTruthy c.connectionId = true →
        c.connectionId ∈
          (GraphProcessor.createGraph userId followers following mutuals
              additionalEdges).nodes.map NetworkNode.id)
    ∧ (∀ followers2 following2 : List ConnectionData,
        GraphProcessor.createGraph userId followers2 following2 mutuals additionalEdges =
          GraphProcessor.createGraph userId followers following mutuals additionalEdges)
    ∧ ((GraphProcessor.createGraph userId followers following
          (mutuals.filter (fun c => jsTruthy c.connectionId)) additionalEdges).nodes.map
            NetworkNode.id =
        (GraphProcessor.createGraph userId followers following mutuals
          additionalEdges).nodes.map NetworkNode.id) := by
  refine ⟨?_, ?_, ?_, ?_⟩
  · exact mutualsFold_nodup mutuals _ (by simp)
  · intro c hc ht
    exact mutualsFold_mem mutuals _ hc ht
  · intro followers2 following2
    rfl
  · show ((mutualsFold (mutuals.filter fun c => jsTruthy c.connectionId) _).map _) = _
    rw [mutualsFold_filter]
    exact mutualsFold_ids_eq mutuals rfl

/-- **C8.** Every edge of a graph produced by `createGraph` has both its
source and target present in the output node set (the final defensive
filter guarantees it). -/
theorem C8_edges_have_endpoints (userId : String)
    (followers following mutuals : List ConnectionData)
    (additionalEdges : Option (List RawEdge)) (e : NetworkEdge)
    (he : e ∈ (GraphProcessor.createGraph userId followers following mutuals
        additionalEdges).edges) :
    e.source ∈ (GraphProcessor.createGraph userId followers following mutuals
        additionalEdges).nodes.map NetworkNode.id
    ∧ e.target ∈ (GraphProcessor.createGraph userId followers following mutuals
        additionalEdges).nodes.map NetworkNode.id := by
  have hmem := List.mem_filter.1 he
  have hp := hmem.2
  simp only [Bool.and_eq_true] at hp
  exact ⟨(hasNode_iff _ _).1 hp.1.2, (hasNode_iff _ _).1 hp.2⟩

/-- **C8 witness.** The edge-endpoint invariant at a concrete graph and a
concrete member edge. -/
theorem C8_witness :
    ("u" : String) ∈ (GraphProcessor.createGraph "u" [] [] [mutualRecordX] none).nodes.map
        NetworkNode.id
    ∧ ("x" : String) ∈ (GraphProcessor.createGraph "u" [] [] [mutualRecordX] none).nodes.map
        NetworkNode.id := by
  have h := C8_edges_have_endpoints "u" [] [] [mutualRecordX] none
    { source := "u", target := "x", type := EdgeType.mutualE } (by decide)
  exact h

section MutualLemmas

open NetworkAnalysisService

/-- Membership in the mutual list: an account of the follower list whose
identifier also appears in the following list. -/
lemma mem_findMutualConnections (F G : List BskyFollower) (a : BskyFollower) :
    a ∈ findMutualConnections F G ↔ a ∈ F ∧ ∃ b ∈ G, b.did = a.did := by
  unfold findMutualConnections
  rw [List.mem_filter]
  constructor
  · rintro ⟨hF, hsome⟩
    rw [List.any_eq_true] at hsome
    rcases hsome with ⟨b, hb, hdid⟩
    rw [decide_eq_true_iff] at hdid
    exact ⟨hF, b, hb, hdid⟩
  · rintro ⟨hF, b, hb, hdid⟩
    refine ⟨hF, ?_⟩
    rw [List.any_eq_true]
    exact ⟨b, hb, by simpa using hdid⟩

lemma mem_didSet (l : List BskyFollower) (d : String) :
    d ∈ didSet l ↔ ∃ a ∈ l, a.did = d := by
  simp [didSet]

/-- The identifier set of the mutual list is the intersection of the
identifier sets. -/
lemma didSet_findMutualConnections (F G : List BskyFollower) :
    didSet (findMutualConnections F G) = didSet F ∩ didSet G := by
  ext d
  rw [Finset.mem_inter, mem_didSet, mem_didSet, mem_didSet]
  constructor
  · rintro ⟨a, ha, rfl⟩
    rcases (mem_findMutualConnections F G a).1 ha with ⟨hF, b, hb, hdid⟩
    exact ⟨⟨a, hF, rfl⟩, ⟨b, hb, hdid⟩⟩
  · rintro ⟨⟨a, ha, rfl⟩, ⟨b, hb, hdid⟩⟩
    exact ⟨a, (mem_findMutualConnections F G a).2 ⟨ha, b, hb, hdid⟩, rfl⟩

lemma didSet_perm {l l' : List BskyFollower} (h : l.Perm l') : didSet l = didSet l' :=
  List.toFinset_eq_of_perm _ _ (List.Perm.map BskyFollower.did h)

/-- Evaluating the mutual check when both fetches succeed. -/
lemma areMutuallyConnected_ok_ok {fetch : String → Except String (List BskyFollower)}
    {u1 u2 : String} {l1 l2 : List BskyFollower}
    (h1 : fetch u1 = Except.ok l1) (h2 : fetch u2 = Except.ok l2) :
    MutualChecker.areMutuallyConnected fetch u1 u2 =
      (l1.any (fun f => f.handle = u2) && l2.any (fun f => f.handle = u1)) := by
  by_cases hc1 : l1.any (fun f => f.handle = u2) = true
  · simp [MutualChecker.areMutuallyConnected, h1, h2, hc1]
  · have hc1f := Bool.eq_false_iff.2 hc1
    simp [MutualChecker.areMutuallyConnected, h1, h2, hc1f]

/-- Evaluating the mutual check when the first fetch raises. -/
lemma areMutuallyConnected_err1 {fetch : String → Except String (List BskyFollower)}
    {u1 u2 e : String} (h1 : fetch u1 = Except.error e) :
    MutualChecker.areMutuallyConnected fetch u1 u2 = false := by
  simp [MutualChecker.areMutuallyConnected, h1]

/-- Evaluating the mutual check when the second fetch raises. -/
lemma areMutuallyConnected_err2 {fetch : String → Except String (List BskyFollower)}
    {u1 u2 e : String} {l1 : List BskyFollower}
    (h1 : fetch u1 = Except.ok l1) (h2 : fetch u2 = Except.error e) :
    MutualChecker.areMutuallyConnected fetch u1 u2 = false := by
  by_cases hc1 : l1.any (fun f => f.handle = u2) = true
  · simp [MutualChecker.areMutuallyConnected, h1, h2, hc1]
  · have hc1f := Bool.eq_false_iff.2 hc1
    simp [MutualChecker.areMutuallyConnected, h1, hc1f]

end MutualLemmas

/-- **C3.** The mutual-connection computation returns exactly the accounts
of the follower list whose stable identifier (`did`) appears in the
following list — the identifier-set intersection, keyed by `did` and not
by handle — and the resulting identifier set is invariant under reordering
either input list. -/
theorem C3_mutuals_are_did_intersection (F G F2 G2 : List BskyFollower)
    (hF : F2.Perm F) (hG : G2.Perm G) :
    (∀ a, a ∈ NetworkAnalysisService.findMutualConnections F G ↔
        a ∈ F ∧ ∃ b ∈ G, b.did = a.did)
    ∧ NetworkAnalysisService.didSet (NetworkAnalysisService.findMutualConnections F G) =
        NetworkAnalysisService.didSet F ∩ NetworkAnalysisService.didSet G
    ∧ NetworkAnalysisService.didSet (NetworkAnalysisService.findMutualConnections F2 G2) =
        NetworkAnalysisService.didSet (NetworkAnalysisService.findMutualConnections F G) := by
  refine ⟨mem_findMutualConnections F G, didSet_findMutualConnections F G, ?_⟩
  rw [didSet_findMutualConnections, didSet_findMutualConnections,
    didSet_perm hF, didSet_perm hG]

/-- **C3 witness.** The identifier-set intersection at concrete reordered
lists. -/
theorem C3_witness :
    (∀ a, a ∈ NetworkAnalysisService.findMutualConnections
        [{ did := "d1", handle := "h1" }, { did := "d2", handle := "h2" }]
        [{ did := "d2", handle := "h2x" }, { did := "d3", handle := "h3" }] ↔
        a ∈ [{ did := "d1", handle := "h1" }, { did := "d2", handle := "h2" }] ∧
          ∃ b ∈ ([{ did := "d2", handle := "h2x" }, { did := "d3", handle := "h3" }] :
            List BskyFollower), b.did = a.did)
    ∧ NetworkAnalysisService.didSet (NetworkAnalysisService.findMutualConnections
        [{ did := "d1", handle := "h1" }, { did := "d2", handle := "h2" }]
        [{ did := "d2", handle := "h2x" }, { did := "d3", handle := "h3" }]) =
        NetworkAnalysisService.didSet
          [{ did := "d1", handle := "h1" }, { did := "d2", handle := "h2" }] ∩
        NetworkAnalysisService.didSet
          [{ did := "d2", handle := "h2x" }, { did := "d3", handle := "h3" }]
    ∧ NetworkAnalysisService.didSet (NetworkAnalysisService.findMutualConnections
        [{ did := "d2", handle := "h2" }, { did := "d1", handle := "h1" }]
        [{ did := "d3", handle := "h3" }, { did := "d2", handle := "h2x" }]) =
        NetworkAnalysisService.didSet (NetworkAnalysisService.findMutualConnections
          [{ did := "d1", handle := "h1" }, { did := "d2", handle := "h2" }]
          [{ did := "d2", handle := "h2x" }, { did := "d3", handle := "h3" }]) :=
  C3_mutuals_are_did_intersection
    [{ did := "d1", handle := "h1" }, { did := "d2", handle := "h2" }]
    [{ did := "d2", handle := "h2x" }, { did := "d3", handle := "h3" }]
    [{ did := "d2", handle := "h2" }, { did := "d1", handle := "h1" }]
    [{ did := "d3", handle := "h3" }, { did := "d2", handle := "h2x" }]
    (by decide) (by decide)

/-- **C10.** The pairwise mutual check is a total boolean: it returns `true`
exactly when both following-list fetches succeed, `user1`'s list contains
`user2` and `user2`'s list contains `user1` (compared by handle), and any
fetch error makes it return `false` — indistinguishable from a confirmed
non-mutual pair. -/
theorem C10_areMutuallyConnected_spec
    (fetchFollowing : String → Except String (List BskyFollower)) (user1 user2 : String) :
    (MutualChecker.areMutuallyConnected fetchFollowing user1 user2 = true ↔
      ∃ l1 l2, fetchFollowing user1 = Except.ok l1 ∧ fetchFollowing user2 = Except.ok l2 ∧
        l1.any (fun f => f.handle = user2) = true ∧ l2.any (fun f => f.handle = user1) = true)
    ∧ (∀ e, fetchFollowing user1 = Except.error e →
        MutualChecker.areMutuallyConnected fetchFollowing user1 user2 = false)
    ∧ (∀ e, fetchFollowing user2 = Except.error e →
        MutualChecker.areMutuallyConnected fetchFollowing user1 user2 = false) := by
  refine ⟨⟨?_, ?_⟩, ?_, ?_⟩
  · intro hres
    cases h1 : fetchFollowing user1 with
    | error e =>
      rw [areMutuallyConnected_err1 h1] at hres
      simp at hres
    | ok l1 =>
      cases h2 : fetchFollowing user2 with
      | error e =>
        rw [areMutuallyConnected_err2 h1 h2] at hres
        simp at hres
      | ok l2 =>
        rw [areMutuallyConnected_ok_ok h1 h2, Bool.and_eq_true] at hres
        exact ⟨l1, l2, rfl, rfl, hres.1, hres.2⟩
  · rintro ⟨l1, l2, h1, h2, hx1, hx2⟩
    rw [areMutuallyConnected_ok_ok h1 h2, Bool.and_eq_true]
    exact ⟨hx1, hx2⟩
  · intro e he
    exact areMutuallyConnected_err1 he
  · intro e he
    cases h1 : fetchFollowing user1 with
    | error e1 => exact areMutuallyConnected_err1 h1
    | ok l1 => exact areMutuallyConnected_err2 h1 he

/-- **C10 witness.** The specification of the mutual check applied at a
concrete fetch function that raises for every handle except `"alice"`. -/
theorem C10_witness :
    (MutualChecker.areMutuallyConnected demoFetch "alice" "bob" = true ↔
      ∃ l1 l2, demoFetch "alice" = Except.ok l1 ∧ demoFetch "bob" = Except.ok l2 ∧
        l1.any (fun f => f.handle = "bob") = true ∧
        l2.any (fun f => f.handle = "alice") = true)
    ∧ (∀ e, demoFetch "bob" = Except.error e →
        MutualChecker.areMutuallyConnected demoFetch "alice" "bob" = false) := by
  have h := C10_areMutuallyConnected_spec demoFetch "alice" "bob"
  exact ⟨h.1, h.2.2⟩

section JobLemmas

/-- The result of the `findOne`-with-sort fold is the accumulator or an
element of the list. -/
lemma foldl_pick_eq_some {better : Job → Job → Bool} :
    ∀ (l : List Job) (acc : Option Job) (j : Job),
      l.foldl (fun acc j => match acc with
        | none => some j
        | some b => if better j b then some j else some b) acc = some j →
      acc = some j ∨ j ∈ l := by
  intro l
  induction l with
  | nil =>
    intro acc j h
    exact Or.inl h
  | cons x xs ih =>
    intro acc j h
    simp only [List.foldl_cons] at h
    rcases ih _ j h with h2 | h2
    · cases acc with
      | none =>
        simp only [Option.some.injEq] at h2
        exact Or.inr (h2 ▸ List.mem_cons_self x xs)
      | some b =>
        by_cases hb : better x b = true
        · simp only [hb, if_true, Option.some.injEq] at h2
          exact Or.inr (h2 ▸ List.mem_cons_self x xs)
        · simp only [hb, if_false] at h2
          exact Or.inl h2
    · exact Or.inr (List.mem_cons_of_mem x h2)

/-- The fold keeps the accumulator defined. -/
lemma foldl_pick_isSome {better : Job → Job → Bool} :
    ∀ (l : List Job) (acc : Option Job), acc.isSome →
      (l.foldl (fun acc j => match acc with
        | none => some j
        | some b => if better j b then some j else some b) acc).isSome := by
  intro l
  induction l with
  | nil => intro acc h; exact h
  | cons x xs ih =>
    intro acc h
    simp only [List.foldl_cons]
    apply ih
    cases acc with
    | none => rfl
    | some b =>
      by_cases hb : better x b = true
      · simp [hb]
      · simp [hb]

/-- A successful `findOne`-with-sort returns a stored document matching the
filter. -/
lemma findOneSorted_mem {store : List Job} {pred : Job → Bool} {better : Job → Job → Bool}
    {j : Job} (h : findOneSorted store pred better = some j) :
    j ∈ store ∧ pred j = true := by
  unfold findOneSorted at h
  rcases foldl_pick_eq_some _ _ _ h with h2 | h2
  · cases h2
  · have := List.mem_filter.1 h2
    exact ⟨this.1, this.2⟩

/-- `findOne`-with-sort succeeds whenever some stored document matches. -/
lemma findOneSorted_isSome (store : List Job) (pred : Job → Bool) (better : Job → Job → Bool)
    {j : Job} (hj : j ∈ store) (hp : pred j = true) :
    ∃ j2, findOneSorted store pred better = some j2 := by
  unfold findOneSorted
  have hmem : j ∈ store.filter pred := List.mem_filter.2 ⟨hj, hp⟩
  cases hfe : store.filter pred with
  | nil => rw [hfe] at hmem; cases hmem
  | cons x xs =>
    simp only [List.foldl_cons]
    have : (xs.foldl (fun acc j => match acc with
        | none => some j
        | some b => if better j b then some j else some b) (some x)).isSome :=
      foldl_pick_isSome xs (some x) rfl
    exact Option.isSome_iff_exists.1 this

end JobLemmas

/-- **C9.** The configured priority handle bypasses the daily refresh quota
entirely — `createJob` never puts a priority-handle job in the
`rateLimited` state (it is created pending with `Number.MAX_SAFE_INTEGER`
priority, with no quota check) — and whenever a priority-handle job is
pending and the concurrency cap is not hit, `findNextJob` claims a
priority-handle job before any other pending job, regardless of the other
jobs' priority values or creation times (and regardless of the priority
job's own refresh count). -/
theorem C9_priority_handle_first (store : List Job) (now : Int) (j : Job)
    (hcap : (store.filter (fun x => x.status = JobStatus.processing)).length <
      QUEUE_LIMITS.MAX_CONCURRENT_JOBS)
    (hmem : j ∈ store) (hpend : j.status = JobStatus.pending)
    (hhandle : j.handle = QUEUE_LIMITS.PRIORITY_HANDLE) :
    (∃ j2, (findNextJob store now).1 = some j2 ∧ j2.handle = QUEUE_LIMITS.PRIORITY_HANDLE ∧
      j2.status = JobStatus.processing)
    ∧ (∀ (store2 : List Job) (now2 : Int) (nextId : Nat) (userId : String) (priority : Int),
        (JobProcessorEvents.createJob store2 now2 nextId userId
            QUEUE_LIMITS.PRIORITY_HANDLE priority).1.status = JobStatus.pending
        ∧ (JobProcessorEvents.createJob store2 now2 nextId userId
            QUEUE_LIMITS.PRIORITY_HANDLE priority).1.priority = MAX_SAFE_INTEGER) := by
  constructor
  · have hp : (fun j => j.status = JobStatus.pending &&
        j.handle = QUEUE_LIMITS.PRIORITY_HANDLE) j = true := by
      simp [hpend, hhandle]
    rcases findOneSorted_isSome store
      (fun j => j.status = JobStatus.pending && j.handle = QUEUE_LIMITS.PRIORITY_HANDLE)
      (fun a b => a.createdAt < b.createdAt) hmem hp with ⟨j2, hj2⟩
    have hj2p := findOneSorted_mem hj2
    simp only [Bool.and_eq_true, decide_eq_true_iff] at hj2p
    refine ⟨getJobUpdateQuery j2 now, ?_, hj2p.2.2, rfl⟩
    unfold findNextJob
    rw [if_neg (by omega), hj2]
  · intro store2 now2 nextId userId priority
    constructor
    · simp [JobProcessorEvents.createJob]
    · simp [JobProcessorEvents.createJob]

/-- **C9 witness.** The priority-handle job is claimed ahead of an older
pending job with a far higher priority value. -/
theorem C9_witness :
    (∃ j2, (findNextJob [jRich, jPrio] 100).1 = some j2 ∧
      j2.handle = QUEUE_LIMITS.PRIORITY_HANDLE ∧ j2.status = JobStatus.processing)
    ∧ (∀ (store2 : List Job) (now2 : Int) (nextId : Nat) (userId : String) (priority : Int),
        (JobProcessorEvents.createJob store2 now2 nextId userId
            QUEUE_LIMITS.PRIORITY_HANDLE priority).1.status = JobStatus.pending
        ∧ (JobProcessorEvents.createJob store2 now2 nextId userId
            QUEUE_LIMITS.PRIORITY_HANDLE priority).1.priority = MAX_SAFE_INTEGER) :=
  C9_priority_handle_first [jRich, jPrio] 100 jPrio (by decide) (by decide) (by decide)
    (by decide)

/-- **C5.** With `DAILY_REFRESH_LIMIT = 5`: `createJob` for a non-priority
handle whose job record of the current UTC day has a refresh count at the
limit creates and returns a job already in the `rateLimited` state with the
quota error, and that job never satisfies the pending-selection filter at
any time (it is never picked up for processing); when every record of the
handle was last refreshed before the current UTC midnight — i.e. after the
exact UTC-midnight rollover — the handle's effective refresh count is 0 and
job creation proceeds normally to a pending job; and a refresh bump after
the rollover restarts the counter at 1. -/
theorem C5_daily_quota :
    QUEUE_LIMITS.DAILY_REFRESH_LIMIT = 5
    ∧ (∀ (store : List Job) (now : Int) (nextId : Nat) (userId handle : String)
        (priority : Int) (existingJob : Job),
        handle ≠ QUEUE_LIMITS.PRIORITY_HANDLE →
        store.find? (fun j => j.handle = handle && utcMidnight now ≤ j.lastRefreshDate) =
          some existingJob →
        QUEUE_LIMITS.DAILY_REFRESH_LIMIT ≤ existingJob.refreshCount →
        (JobProcessorEvents.createJob store now nextId userId handle priority).1.status =
            JobStatus.rateLimited
        ∧ (JobProcessorEvents.createJob store now nextId userId handle priority).1.error =
            some "Daily refresh limit exceeded"
        ∧ (∀ t, JobProcessorEvents.pendingSelectable t
            (JobProcessorEvents.createJob store now nextId userId handle priority).1 = false))
    ∧ (∀ (store : List Job) (now : Int) (nextId : Nat) (userId handle : String)
        (priority : Int),
        (∀ j ∈ store, j.handle = handle → j.lastRefreshDate < utcMidnight now) →
        (JobProcessorEvents.createJob store now nextId userId handle priority).1.status =
            JobStatus.pending
        ∧ JobProcessorEvents.getUserRefreshCount store now handle = 0)
    ∧ (∀ (j : Job) (now : Int), j.lastRefreshDate < utcMidnight now →
        (Job.incrementRefreshCount j now).refreshCount = 1) := by
  refine ⟨rfl, ?_, ?_, ?_⟩
  · intro store now nextId userId handle priority existingJob hne hfind hq
    refine ⟨?_, ?_, ?_⟩
    · simp [JobProcessorEvents.createJob, hne, hfind, hq]
    · simp [JobProcessorEvents.createJob, hne, hfind, hq]
    · intro t
      simp [JobProcessorEvents.pendingSelectable,
        JobProcessorEvents.createJob, hne, hfind, hq]
  · intro store now nextId userId handle priority hall
    have hnone : store.find?
        (fun j => j.handle = handle && utcMidnight now ≤ j.lastRefreshDate) = none := by
      rw [List.find?_eq_none]
      intro j hj
      by_cases hh : j.handle = handle
      · have := hall j hj hh
        simp [hh]
        omega
      · simp [hh]
    constructor
    · by_cases hne : handle = QUEUE_LIMITS.PRIORITY_HANDLE
      · simp [JobProcessorEvents.createJob, hne]
      · simp [JobProcessorEvents.createJob, hne, hnone]
    · simp [JobProcessorEvents.getUserRefreshCount, hnone]
  · intro j now h
    simp [Job.incrementRefreshCount, h]

/-- **C5 witness.** The quota rejection at the limit on the current day,
and the effective reset just after the exact UTC-midnight boundary
(the record was refreshed at 86400000 ms, the midnight opening day 1; at
`now = 86400005` — the same day — the handle is rejected; at
`now = 172800000` — the exact next midnight — creation proceeds and the
effective count is 0, with the next bump restarting at 1). -/
theorem C5_witness :
    ((JobProcessorEvents.createJob [jQuota] 86400005 9 "u" "h" 0).1.status =
        JobStatus.rateLimited
      ∧ (JobProcessorEvents.createJob [jQuota] 86400005 9 "u" "h" 0).1.error =
        some "Daily refresh limit exceeded"
      ∧ (∀ t, JobProcessorEvents.pendingSelectable t
          (JobProcessorEvents.createJob [jQuota] 86400005 9 "u" "h" 0).1 = false))
    ∧ ((JobProcessorEvents.createJob [jQuota] 172800000 9 "u" "h" 0).1.status =
        JobStatus.pending
      ∧ JobProcessorEvents.getUserRefreshCount [jQuota] 172800000 "h" = 0)
    ∧ (Job.incrementRefreshCount jQuota 172800000).refreshCount = 1 :=
  ⟨C5_daily_quota.2.1 [jQuota] 86400005 9 "u" "h" 0 jQuota (by decide) (by decide)
      (by decide),
    C5_daily_quota.2.2.1 [jQuota] 172800000 9 "u" "h" 0 (by decide),
    C5_daily_quota.2.2.2 jQuota 172800000 (by decide)⟩

section SaveJobLemmas

open JobProcessorService

/-- Saving a job whose id is absent leaves the store unchanged. -/
lemma saveJob_eq_self {l : List Job} {j : Job} (h : ∀ y ∈ l, y.id ≠ j.id) :
    saveJob l j = l := by
  unfold saveJob
  induction l with
  | nil => rfl
  | cons x xs ih =>
    simp only [List.map_cons]
    rw [if_neg (h x (List.mem_cons_self x xs)), ih (fun y hy => h y (List.mem_cons_of_mem x hy))]

/-- The updated document is a member of its own save. -/
lemma mem_saveJob_self {store : List Job} {j x : Job} (hx : x ∈ store) (hid : x.id = j.id) :
    j ∈ saveJob store j := by
  unfold saveJob
  exact List.mem_map.2 ⟨x, hx, by simp [hid]⟩

/-- Replacing a stored document by one with the same id and the same
activity status leaves the handle's active count unchanged (ids must be
unique, as Mongo guarantees for `_id`). -/
lemma activeCount_saveJob (store : List Job) (handle : String) (ex ex2 : Job)
    (hid : ex2.id = ex.id) (hmem : ex ∈ store) (hnd : (store.map Job.id).Nodup)
    (hact : isActiveFor handle ex2 = isActiveFor handle ex) :
    activeCount (saveJob store ex2) handle = activeCount store handle := by
  induction store with
  | nil => cases hmem
  | cons x xs ih =>
    have hnd2 : (xs.map Job.id).Nodup := (List.nodup_cons.1 hnd).2
    have hxid : x.id ∉ xs.map Job.id := (List.nodup_cons.1 hnd).1
    rcases List.mem_cons.1 hmem with rfl | hmem2
    · -- the replaced document is the head; no tail entry shares its id
      have htail : saveJob xs ex2 = xs := by
        apply saveJob_eq_self
        intro y hy hyid
        apply hxid
        rw [← hid, ← hyid]
        exact List.mem_map_of_mem Job.id hy
      unfold saveJob at htail ⊢
      simp only [List.map_cons, if_pos hid.symm, htail]
      simp only [activeCount, List.filter_cons, hact]
      split
      · simp
      · rfl
    · -- the replaced document is in the tail; the head keeps its place
      have hxne : x.id ≠ ex2.id := by
        intro hxe
        apply hxid
        rw [hxe, hid]
        exact List.mem_map_of_mem Job.id hmem2
      have := ih hmem2 hnd2
      unfold saveJob at this ⊢
      simp only [List.map_cons, if_neg hxne]
      simp only [activeCount, List.filter_cons] at this ⊢
      split
      · simpa using this
      · exact this

/-- When `getCurrentJob` finds nothing, the handle has no active job. -/
lemma activeCount_eq_zero {store : List Job} {handle : String}
    (h : getCurrentJob store handle = none) : activeCount store handle = 0 := by
  unfold getCurrentJob at h
  rw [List.find?_eq_none] at h
  unfold activeCount
  rw [List.length_eq_zero]
  rw [List.filter_eq_nil]
  intro a ha
  exact h a ha

/-- The service `createJob` on a handle with an active job either returns
that job with the store untouched, or (stuck in-progress case) returns it
reset to pending and saved back. -/
lemma createJob_of_active (store : List Job) (now : Int) (nextId : Nat)
    (userId handle : String) (priority : Int) (ex : Job)
    (hex : getCurrentJob store handle = some ex) :
    JobProcessorService.createJob store now nextId userId handle priority = (ex, store)
    ∨ JobProcessorService.createJob store now nextId userId handle priority =
        ({ ex with status := JobStatus.pending, startedAt := none },
          saveJob store { ex with status := JobStatus.pending, startedAt := none }) := by
  unfold JobProcessorService.createJob
  rw [hex]
  dsimp only
  by_cases hip : ex.status = JobStatus.inProgress
  · rw [if_pos hip]
    cases hst : ex.startedAt with
    | none => exact Or.inl rfl
    | some s =>
      dsimp only
      by_cases hs : s < now - 5 * 60 * 1000
      · rw [if_pos hs]
        exact Or.inr rfl
      · rw [if_neg hs]
        exact Or.inl rfl
  · rw [if_neg hip]
    exact Or.inl rfl

end SaveJobLemmas

/-- **C6 counterexample.** The `EventEmitter`-based `createJob` performs no
active-job check: called for handle `"h"` while a pending job for `"h"` is
already stored (and the daily quota is not hit), it creates and returns a
*new* pending job, leaving two simultaneously active jobs for the handle —
the claim's at-most-one-active-job invariant fails on this code path. -/
theorem C6_counterexample :
    (JobProcessorEvents.createJob [jobH] 0 1 "u" "h" 0).1.id ≠ jobH.id
    ∧ (JobProcessorEvents.createJob [jobH] 0 1 "u" "h" 0).1.status = JobStatus.pending
    ∧ jobH.status = JobStatus.pending ∧ jobH.handle = "h"
    ∧ JobProcessorService.activeCount (JobProcessorEvents.createJob [jobH] 0 1 "u" "h" 0).2 "h"
        = 2 := by
  decide

/-- **C6 (amended).** The *service-class* `createJob` does return the
existing job whenever one is pending or in progress for the handle — it
adds nothing to the store in that case — and it preserves the
at-most-one-active-job-per-handle invariant; the `EventEmitter`-based
`createJob` has no such check (see the counterexample). -/
theorem C6_at_most_one_active (store : List Job) (now : Int) (nextId : Nat)
    (userId handle : String) (priority : Int)
    (hnd : (store.map Job.id).Nodup)
    (hle : JobProcessorService.activeCount store handle ≤ 1) :
    JobProcessorService.activeCount
        (JobProcessorService.createJob store now nextId userId handle priority).2 handle ≤ 1
    ∧ (∀ ex, JobProcessorService.getCurrentJob store handle = some ex →
        (JobProcessorService.createJob store now nextId userId handle priority).1.id = ex.id
        ∧ (JobProcessorService.createJob store now nextId userId handle priority).2.length =
            store.length) := by
  cases hex : JobProcessorService.getCurrentJob store handle with
  | none =>
    have hz2 : ∀ a ∈ store, ¬ JobProcessorService.isActiveFor handle a = true := by
      have hex2 := hex
      unfold JobProcessorService.getCurrentJob at hex2
      rw [List.find?_eq_none] at hex2
      exact hex2
    constructor
    · simp only [JobProcessorService.createJob, hex]
      simp only [JobProcessorService.activeCount, List.filter_append]
      rw [List.filter_eq_nil.2 hz2]
      simp [JobProcessorService.isActiveFor]
    · intro ex hsome
      exact Option.noConfusion hsome
  | some ex =>
    have hexm : ex ∈ store ∧ JobProcessorService.isActiveFor handle ex = true := by
      unfold JobProcessorService.getCurrentJob at hex
      exact ⟨List.mem_of_find?_eq_some hex, List.find?_some hex⟩
    have hhandle : ex.handle = handle := by
      have h2 := hexm.2
      unfold JobProcessorService.isActiveFor at h2
      simp only [Bool.and_eq_true, decide_eq_true_iff] at h2
      exact h2.1
    have hsavelen : ∀ j : Job, (saveJob store j).length = store.length := by
      intro j
      unfold saveJob
      exact List.length_map store _
    have hact : JobProcessorService.isActiveFor handle
        { ex with status := JobStatus.pending, startedAt := none } =
        JobProcessorService.isActiveFor handle ex := by
      rw [hexm.2]
      simp [JobProcessorService.isActiveFor, hhandle]
    have hcnt := activeCount_saveJob store handle ex
      { ex with status := JobStatus.pending, startedAt := none } rfl hexm.1 hnd hact
    rcases createJob_of_active store now nextId userId handle priority ex hex with hr | hr
    · rw [hr]
      refine ⟨hle, ?_⟩
      intro ex2 hsome
      cases hsome
      exact ⟨rfl, rfl⟩
    · rw [hr]
      refine ⟨?_, ?_⟩
      · rw [hcnt]
        exact hle
      · intro ex2 hsome
        cases hsome
        exact ⟨rfl, hsavelen _⟩

/-- **C6 witness.** The invariant-preservation theorem applied to a store
already holding one pending job for the handle. -/
theorem C6_witness :
    JobProcessorService.activeCount
        (JobProcessorService.createJob [jobH] 0 1 "u" "h" 0).2 "h" ≤ 1
    ∧ (∀ ex, JobProcessorService.getCurrentJob [jobH] "h" = some ex →
        (JobProcessorService.createJob [jobH] 0 1 "u" "h" 0).1.id = ex.id
        ∧ (JobProcessorService.createJob [jobH] 0 1 "u" "h" 0).2.length =
            ([jobH] : List Job).length) :=
  C6_at_most_one_active [jobH] 0 1 "u" "h" 0 (by decide) (by decide)

/-- **C4 counterexample.** The claim promises a return to pending with a
`2^attempts`-second backoff. Neither retry path does both: the
`EventEmitter`-based processor does return the job to pending but with a
`2^(attempts-1)`-second backoff — after the first failed attempt
(`attempts = 1`) the delay is 1000 ms, not `2^1` seconds — while the
service-class processor computes the `2^attempts`-second backoff (2000 ms)
but leaves the job in the `failed` status, not pending. -/
theorem C4_counterexample :
    (JobProcessorEvents.processNextJob [jobH] 0 hFail).map
        (fun j => (j.status, j.attempts, j.nextAttempt)) =
      [(JobStatus.pending, 1, some (1000 : Int))]
    ∧ (1000 : Int) ≠ 2 ^ (1 : Nat) * 1000
    ∧ (JobProcessorService.processJob [jobH] 0 hFail jobH).1.status = JobStatus.failed
    ∧ (JobProcessorService.processJob [jobH] 0 hFail jobH).1.attempts = 1
    ∧ (JobProcessorService.processJob [jobH] 0 hFail jobH).1.maxAttempts = 3
    ∧ (JobProcessorService.processJob [jobH] 0 hFail jobH).1.nextAttempt = some (2000 : Int)
    ∧ (JobProcessorService.processJob [jobH] 0 hFail jobH).1.status ≠ JobStatus.pending := by
  decide


section RetryLemmas

open JobProcessorEvents JobProcessorService

lemma incrementRefreshCount_fields (j : Job) (now : Int) :
    (Job.incrementRefreshCount j now).id = j.id
    ∧ (Job.incrementRefreshCount j now).attempts = j.attempts
    ∧ (Job.incrementRefreshCount j now).maxAttempts = j.maxAttempts := by
  refine ⟨?_, ?_, ?_⟩ <;> simp [Job.incrementRefreshCount]

lemma claimJob_fields (j : Job) (now : Int) :
    (claimJob j now).id = j.id
    ∧ (claimJob j now).attempts = j.attempts + 1
    ∧ (claimJob j now).maxAttempts = j.maxAttempts := by
  refine ⟨rfl, rfl, rfl⟩

lemma retryOrFail_id (j2 : Job) (now : Int) (msg : String) :
    (retryOrFail j2 now msg).id = j2.id := by
  unfold retryOrFail Job.fail
  split
  · rfl
  · rfl

end RetryLemmas

/-- **C4 (amended).** In the `EventEmitter`-based processor, when the
picked job's handler throws and the incremented attempt count is still
below `maxAttempts`, the job is saved back to the store in the pending
state with an exponential backoff of `2^(attempts-1)` seconds (`attempts`
counted after the increment); once the count reaches `maxAttempts` it is
failed terminally with the error recorded and never matches the
pending-selection filter again. The service-class processor instead
computes a `2^attempts`-second backoff but parks the retried job in the
`failed` status rather than pending. A job with `maxAttempts = 3` whose
handler throws on attempts 1 and 2 is rescheduled exactly twice, with
strictly increasing delays of 1 then 2 seconds, and completes on the
successful third attempt. -/
theorem C4_retry_backoff :
    (∀ (store : List Job) (now : Int) (handler : Job → Except String (Option Nat))
        (j : Job) (msg : String),
      JobProcessorEvents.findNext store now = some j →
      handler (Job.incrementRefreshCount (JobProcessorEvents.claimJob j now) now) =
        Except.error msg →
      (j.attempts + 1 < j.maxAttempts →
        ∃ out ∈ JobProcessorEvents.processNextJob store now handler,
          out.id = j.id ∧ out.status = JobStatus.pending ∧ out.attempts = j.attempts + 1 ∧
          out.nextAttempt = some (now + 2 ^ j.attempts * 1000))
      ∧ (j.maxAttempts ≤ j.attempts + 1 →
        ∃ out ∈ JobProcessorEvents.processNextJob store now handler,
          out.id = j.id ∧ out.status = JobStatus.failed ∧ out.error = some msg ∧
          ∀ t, JobProcessorEvents.pendingSelectable t out = false))
    ∧ (∀ (store : List Job) (now : Int) (handler : Job → Except String (Option Nat))
        (job : Job) (msg : String),
        handler (JobProcessorService.markInProgress job now) = Except.error msg →
        job.attempts + 1 < job.maxAttempts →
        (JobProcessorService.processJob store now handler job).1.status = JobStatus.failed
        ∧ (JobProcessorService.processJob store now handler job).1.nextAttempt =
            some (now + 2 ^ (job.attempts + 1) * 1000))
    ∧ ((JobProcessorEvents.processNextJob [jobH] 0 hScen).map
          (fun j => (j.status, j.attempts, j.nextAttempt)) =
        [(JobStatus.pending, 1, some (1000 : Int))]
      ∧ (JobProcessorEvents.processNextJob
            (JobProcessorEvents.processNextJob [jobH] 0 hScen) 1000 hScen).map
          (fun j => (j.status, j.attempts, j.nextAttempt)) =
        [(JobStatus.pending, 2, some (3000 : Int))]
      ∧ (JobProcessorEvents.processNextJob (JobProcessorEvents.processNextJob
            (JobProcessorEvents.processNextJob [jobH] 0 hScen) 1000 hScen) 3000 hScen).map
          (fun j => (j.status, j.attempts)) =
        [(JobStatus.completed, 3)]
      ∧ (1000 : Int) - 0 < (3000 : Int) - 1000) := by
  refine ⟨?_, ?_, by decide⟩
  · intro store now handler j msg hfind hh
    have hjmem : j ∈ store := (findOneSorted_mem hfind).1
    have hres : JobProcessorEvents.processNextJob store now handler =
        saveJob (saveJob (saveJob store (JobProcessorEvents.claimJob j now))
            (Job.incrementRefreshCount (JobProcessorEvents.claimJob j now) now))
          (JobProcessorEvents.retryOrFail
            (Job.incrementRefreshCount (JobProcessorEvents.claimJob j now) now) now msg) := by
      unfold JobProcessorEvents.processNextJob
      rw [hfind]
      dsimp only
      rw [hh]
    have hatt : (Job.incrementRefreshCount (JobProcessorEvents.claimJob j now) now).attempts =
        j.attempts + 1 := by
      simp [Job.incrementRefreshCount, JobProcessorEvents.claimJob]
    have hmax : (Job.incrementRefreshCount (JobProcessorEvents.claimJob j now) now).maxAttempts =
        j.maxAttempts := by
      simp [Job.incrementRefreshCount, JobProcessorEvents.claimJob]
    have hid2 : (Job.incrementRefreshCount (JobProcessorEvents.claimJob j now) now).id = j.id := by
      simp [Job.incrementRefreshCount, JobProcessorEvents.claimJob]
    have hm1 : JobProcessorEvents.claimJob j now ∈
        saveJob store (JobProcessorEvents.claimJob j now) :=
      mem_saveJob_self hjmem rfl
    have hm2 : Job.incrementRefreshCount (JobProcessorEvents.claimJob j now) now ∈
        saveJob (saveJob store (JobProcessorEvents.claimJob j now))
          (Job.incrementRefreshCount (JobProcessorEvents.claimJob j now) now) :=
      mem_saveJob_self hm1 rfl
    have hm3 : JobProcessorEvents.retryOrFail
        (Job.incrementRefreshCount (JobProcessorEvents.claimJob j now) now) now msg ∈
        saveJob (saveJob (saveJob store (JobProcessorEvents.claimJob j now))
            (Job.incrementRefreshCount (JobProcessorEvents.claimJob j now) now))
          (JobProcessorEvents.retryOrFail
            (Job.incrementRefreshCount (JobProcessorEvents.claimJob j now) now) now msg) :=
      mem_saveJob_self hm2 (retryOrFail_id _ now msg).symm
    constructor
    · intro hlt
      have hcond : (Job.incrementRefreshCount (JobProcessorEvents.claimJob j now) now).attempts <
          (Job.incrementRefreshCount (JobProcessorEvents.claimJob j now) now).maxAttempts := by
        rw [hatt, hmax]
        exact hlt
      have hout : JobProcessorEvents.retryOrFail
          (Job.incrementRefreshCount (JobProcessorEvents.claimJob j now) now) now msg =
          { Job.incrementRefreshCount (JobProcessorEvents.claimJob j now) now with
            nextAttempt := some (now + 2 ^
              ((Job.incrementRefreshCount (JobProcessorEvents.claimJob j now) now).attempts - 1)
              * 1000),
            status := JobStatus.pending } := by
        unfold JobProcessorEvents.retryOrFail
        rw [if_pos hcond]
      rw [hres]
      refine ⟨_, hm3, ?_, ?_, ?_, ?_⟩
      · rw [retryOrFail_id]
        exact hid2
      · rw [hout]
      · rw [hout]
        simpa using hatt
      · rw [hout]
        simp [hatt]
    · intro hge
      have hcond : ¬ ((Job.incrementRefreshCount (JobProcessorEvents.claimJob j now) now).attempts <
          (Job.incrementRefreshCount (JobProcessorEvents.claimJob j now) now).maxAttempts) := by
        rw [hatt, hmax]
        omega
      have hout : JobProcessorEvents.retryOrFail
          (Job.incrementRefreshCount (JobProcessorEvents.claimJob j now) now) now msg =
          Job.fail (Job.incrementRefreshCount (JobProcessorEvents.claimJob j now) now) now msg := by
        unfold JobProcessorEvents.retryOrFail
        rw [if_neg hcond]
      rw [hres]
      refine ⟨_, hm3, ?_, ?_, ?_, ?_⟩
      · rw [retryOrFail_id]
        exact hid2
      · rw [hout]
        simp [Job.fail]
      · rw [hout]
        simp [Job.fail]
      · intro t
        rw [hout]
        simp [JobProcessorEvents.pendingSelectable, Job.fail]
  · intro store now handler job msg hh hlt
    have hres : JobProcessorService.processJob store now handler job =
        (JobProcessorService.failOrBackoff (JobProcessorService.markInProgress job now) now msg,
          saveJob (saveJob store (JobProcessorService.markInProgress job now))
            (JobProcessorService.failOrBackoff
              (JobProcessorService.markInProgress job now) now msg)) := by
      unfold JobProcessorService.processJob
      dsimp only
      rw [hh]
    have hcond : ¬ ((JobProcessorService.markInProgress job now).maxAttempts ≤
        (JobProcessorService.markInProgress job now).attempts) := by
      simp only [JobProcessorService.markInProgress]
      omega
    have hout : JobProcessorService.failOrBackoff
        (JobProcessorService.markInProgress job now) now msg =
        { JobProcessorService.markInProgress job now with
          nextAttempt := some (now + 2 ^
            (JobProcessorService.markInProgress job now).attempts * 1000),
          status := JobStatus.failed } := by
      unfold JobProcessorService.failOrBackoff
      rw [if_neg hcond]
    rw [hres]
    constructor
    · rw [hout]
    · rw [hout]
      simp [JobProcessorService.markInProgress]

/-- **C4 witness.** The amended retry rule applied to a fresh job whose
handler throws: it lands back in the store pending with a 1-second
(`2^(1-1)` s) backoff. -/
theorem C4_witness :
    ∃ out ∈ JobProcessorEvents.processNextJob [jobH] 0 hFail,
      out.id = jobH.id ∧ out.status = JobStatus.pending ∧
      out.attempts = jobH.attempts + 1 ∧
      out.nextAttempt = some ((0 : Int) + 2 ^ jobH.attempts * 1000) :=
  (C4_retry_backoff.1 [jobH] 0 hFail jobH "boom" (by decide) rfl).1 (by decide)

/-- **C7 witness.** The amended node-construction contract at a concrete
call. -/
theorem C7_witness :
    ((GraphProcessor.createGraph "u" [] [] [mutualRecordX] none).nodes.map
        NetworkNode.id).Nodup
    ∧ (∀ c ∈ [mutualRecordX], jsTruthy c.connectionId = true →
        c.connectionId ∈
          (GraphProcessor.createGraph "u" [] [] [mutualRecordX] none).nodes.map NetworkNode.id)
    ∧ (∀ followers2 following2 : List ConnectionData,
        GraphProcessor.createGraph "u" followers2 following2 [mutualRecordX] none =
          GraphProcessor.createGraph "u" [] [] [mutualRecordX] none)
    ∧ ((GraphProcessor.createGraph "u" [] []
          ([mutualRecordX].filter (fun c => jsTruthy c.connectionId)) none).nodes.map
            NetworkNode.id =
        (GraphProcessor.createGraph "u" [] [] [mutualRecordX] none).nodes.map NetworkNode.id) :=
  C7_one_node_per_mutual_id "u" [] [] [mutualRecordX] none

section PartitionLemmas

open GraphProcessor

lemma mapGet_mapSet_self (m : NodeMap) (k : String) (v : Nat) :
    mapGet (mapSet m k v) k = some v := by
  induction m with
  | nil => simp [mapGet, mapSet]
  | cons p rest ih =>
    by_cases h : p.1 = k
    · simp [mapGet, mapSet, h]
    · simp [mapGet, mapSet, h, ih]

lemma mapGet_mapSet_ne (m : NodeMap) (k : String) (v : Nat) (k2 : String) (h : k2 ≠ k) :
    mapGet (mapSet m k v) k2 = mapGet m k2 := by
  have h2 : ¬ (k = k2) := fun he => h he.symm
  induction m with
  | nil => simp [mapGet, mapSet, h2]
  | cons p rest ih =>
    obtain ⟨a, b⟩ := p
    by_cases hp : a = k
    · subst hp
      unfold mapSet
      rw [if_pos rfl]
      unfold mapGet
      rw [if_neg h2, if_neg h2]
    · unfold mapSet
      rw [if_neg hp]
      unfold mapGet
      by_cases hq : a = k2
      · rw [if_pos hq, if_pos hq]
      · rw [if_neg hq, if_neg hq]
        exact ih

/-- A defined binding of the association map is a member (the first match
is in the list). -/
lemma mapGet_some_mem (m : NodeMap) (k : String) (v : Nat) (h : mapGet m k = some v) :
    (k, v) ∈ m := by
  induction m with
  | nil => cases h
  | cons p rest ih =>
    by_cases hp : p.1 = k
    · unfold mapGet at h
      rw [if_pos hp] at h
      obtain ⟨a, b⟩ := p
      cases h
      simp only at hp
      subst hp
      exact List.mem_cons_self _ _
    · unfold mapGet at h
      rw [if_neg hp] at h
      exact List.mem_cons_of_mem p (ih h)

/-- `mapSet` with a fresh key appends the binding. -/
lemma mapSet_fresh (m : NodeMap) (k : String) (v : Nat) (h : ∀ p ∈ m, p.1 ≠ k) :
    mapSet m k v = m ++ [(k, v)] := by
  induction m with
  | nil => rfl
  | cons p rest ih =>
    unfold mapSet
    rw [if_neg (h p (List.mem_cons_self p rest))]
    rw [ih (fun q hq => h q (List.mem_cons_of_mem p hq))]
    rfl

lemma get?_set_self (l : List Community) (i : Nat) (c c2 : Community)
    (h : l.get? i = some c) : (l.set i c2).get? i = some c2 := by
  rw [List.get?_set]
  rw [if_pos rfl, h]
  rfl

lemma get?_set_ne (l : List Community) (i j : Nat) (c2 : Community) (h : i ≠ j) :
    (l.set i c2).get? j = l.get? j := by
  rw [List.get?_set, if_neg h]

/-- Count bookkeeping of `commJoin` under a `set`: replacing the community
at a defined index trades its members for the new ones. -/
lemma commJoin_set_count (l : List Community) (i : Nat) (c c2 : Community)
    (h : l.get? i = some c) (a : String) :
    (commJoin (l.set i c2)).count a + c.members.count a =
      (commJoin l).count a + c2.members.count a := by
  induction l generalizing i with
  | nil => cases h
  | cons x xs ih =>
    cases i with
    | zero =>
      cases h
      simp only [List.set]
      simp [commJoin, List.count_append]
      omega
    | succ n =>
      simp only [List.get?] at h
      simp only [List.set]
      have := ih n h
      simp only [commJoin, List.map_cons, List.flatten_cons, List.count_append] at this ⊢
      omega

/-- The member count of the community at a defined index is bounded by the
joined count. -/
lemma count_members_le_join (l : List Community) (i : Nat) (c : Community)
    (h : l.get? i = some c) (a : String) :
    c.members.count a ≤ (commJoin l).count a := by
  induction l generalizing i with
  | nil => cases h
  | cons x xs ih =>
    cases i with
    | zero =>
      cases h
      simp [commJoin, List.count_append]
    | succ n =>
      simp only [List.get?] at h
      have := ih n h
      simp only [commJoin, List.map_cons, List.flatten_cons, List.count_append] at this ⊢
      omega

/-- A member of a community at a defined index is in the join. -/
lemma mem_join_of_mem_members (l : List Community) (i : Nat) (c : Community)
    (h : l.get? i = some c) (m : String) (hm : m ∈ c.members) : m ∈ commJoin l := by
  rw [← List.count_pos_iff] at hm ⊢
  exact lt_of_lt_of_le hm (count_members_le_join l i c h m)

end PartitionLemmas

section PartitionLemmas2

open GraphProcessor

/-- One node move preserves the partition invariant: the node leaves its
current community's member list (an exact single removal, because members
are globally duplicate-free and never falsy) and joins the target
community, with the node map repointed. -/
lemma moveNode_inv (nodeIds : List String)
    (hvalid : ∀ x ∈ nodeIds, x ≠ "") (hnd : nodeIds.Nodup)
    (st : DetectState) (hInv : PartInv nodeIds st)
    (nid : String) (cur best : Nat) (hne : best ≠ cur)
    (hcur : mapGet st.nodeMap nid = some cur)
    (hbestI : ∃ n, mapGet st.nodeMap n = some best) :
    PartInv nodeIds (moveNode st nid cur best) := by
  obtain ⟨hP1, hP2, hP3⟩ := hInv
  obtain ⟨ccur, hgc, hmemc⟩ := hP3 nid cur hcur
  obtain ⟨n0, hn0⟩ := hbestI
  obtain ⟨cbest, hgb, hmemb⟩ := hP3 n0 best hn0
  have hmemsub : ∀ m ∈ ccur.members, m ∈ nodeIds := by
    intro m hm
    exact hP1.mem_iff.1 (mem_join_of_mem_members _ _ _ hgc m hm)
  have hnidIn : nid ∈ nodeIds := hmemsub nid hmemc
  have hcount1 : ccur.members.count nid = 1 := by
    have hub := count_members_le_join st.communities cur ccur hgc nid
    have hje : (commJoin st.communities).count nid = nodeIds.count nid :=
      List.perm_iff_count.1 hP1 nid
    have hnn : nodeIds.count nid = 1 := List.count_eq_one_of_mem hnd hnidIn
    have hlb : 0 < ccur.members.count nid := List.count_pos_iff.2 hmemc
    omega
  have hFcount : ∀ a : String,
      (ccur.members.filter (fun id => jsTruthy id && id ≠ nid)).count a =
        if a = nid then 0 else ccur.members.count a := by
    intro a
    by_cases ha : a = nid
    · subst ha
      rw [if_pos rfl, List.count_eq_zero]
      intro hmem
      have hpred := List.of_mem_filter hmem
      simp at hpred
    · rw [if_neg ha]
      by_cases hin : a ∈ ccur.members
      · apply List.count_filter
        have hne2 : a ≠ "" := hvalid a (hmemsub a hin)
        simp [jsTruthy, hne2, ha]
      · rw [List.count_eq_zero.2 hin, List.count_eq_zero]
        intro hmf
        exact hin (List.mem_of_mem_filter hmf)
  have hgb1 : (st.communities.set cur
      { ccur with
        members := ccur.members.filter (fun id => jsTruthy id && id ≠ nid),
        size := (ccur.members.filter (fun id => jsTruthy id && id ≠ nid)).length }).get? best =
      some cbest := by
    rw [get?_set_ne _ _ _ _ (Ne.symm hne)]
    exact hgb
  unfold moveNode
  rw [hgc]
  dsimp only
  rw [hgb1]
  dsimp only
  refine ⟨?_, ?_, ?_⟩
  · -- P1: the joined members stay a permutation of the node ids
    rw [List.perm_iff_count]
    intro a
    dsimp only
    have e1 := commJoin_set_count st.communities cur ccur
      { ccur with
        members := ccur.members.filter (fun id => jsTruthy id && id ≠ nid),
        size := (ccur.members.filter (fun id => jsTruthy id && id ≠ nid)).length } hgc a
    have e2 := commJoin_set_count _ best cbest
      { cbest with members := cbest.members ++ [nid], size := (cbest.members ++ [nid]).length }
      hgb1 a
    have hj := List.perm_iff_count.1 hP1 a
    have hFc := hFcount a
    simp only at e1 e2
    rw [List.count_append] at e2
    by_cases ha : a = nid
    · subst ha
      rw [if_pos rfl] at hFc
      have hone : List.count a [a] = 1 := by simp
      rw [hone] at e2
      omega
    · rw [if_neg ha] at hFc
      have hsing : [nid].count a = 0 := by
        rw [List.count_eq_zero]
        simp [ha]
      rw [hsing] at e2
      omega
  · -- P2: sizes track member counts
    intro c hc
    rcases List.mem_or_eq_of_mem_set hc with hc1 | rfl
    · rcases List.mem_or_eq_of_mem_set hc1 with hc2 | rfl
      · exact hP2 c hc2
      · rfl
    · rfl
  · -- P3: the node map keeps pointing at a community containing the id
    intro id i hmi
    by_cases hid : id = nid
    · subst hid
      rw [mapGet_mapSet_self] at hmi
      cases hmi
      refine ⟨_, get?_set_self _ _ _ _ hgb1, ?_⟩
      simp
    · rw [mapGet_mapSet_ne _ _ _ _ hid] at hmi
      obtain ⟨c, hgci, hmc⟩ := hP3 id i hmi
      by_cases hicur : i = cur
      · subst hicur
        have hceq : c = ccur := by
          rw [hgc] at hgci
          cases hgci
          rfl
        subst hceq
        refine ⟨{ c with
            members := c.members.filter (fun id => jsTruthy id && id ≠ nid),
            size := (c.members.filter (fun id => jsTruthy id && id ≠ nid)).length }, ?_, ?_⟩
        · show (_ : List Community).get? _ = _
          rw [get?_set_ne _ _ _ _ hne]
          exact get?_set_self _ _ _ _ hgc
        · apply List.mem_filter.2
          refine ⟨hmc, ?_⟩
          have hne2 : id ≠ "" := hvalid id (hmemsub id hmc)
          simp [jsTruthy, hne2, hid]
      · by_cases hibest : i = best
        · subst hibest
          have hceq : c = cbest := by
            rw [hgb] at hgci
            cases hgci
            rfl
          subst hceq
          refine ⟨_, get?_set_self _ _ _ _ hgb1, ?_⟩
          simp [hmc]
        · refine ⟨c, ?_, hmc⟩
          rw [get?_set_ne _ _ _ _ (fun he => hibest he.symm),
            get?_set_ne _ _ _ _ (fun he => hicur he.symm)]
          exact hgci

end PartitionLemmas2

section PartitionLemmas3

open GraphProcessor

lemma bumpCount_keys (l : List (Nat × Nat)) (k k2 : Nat)
    (h : k2 ∈ (bumpCount l k).map Prod.fst) : k2 ∈ l.map Prod.fst ∨ k2 = k := by
  induction l with
  | nil =>
    simp [bumpCount] at h
    exact Or.inr h
  | cons p rest ih =>
    obtain ⟨a, b⟩ := p
    unfold bumpCount at h
    split at h
    · next ha =>
      simp only [List.map_cons] at h ⊢
      rcases List.mem_cons.1 h with rfl | h2
      · exact Or.inr ha
      · exact Or.inl (List.mem_cons_of_mem _ h2)
    · simp only [List.map_cons] at h ⊢
      rcases List.mem_cons.1 h with rfl | h2
      · exact Or.inl (List.mem_cons_self _ _)
      · rcases ih h2 with h3 | h3
        · exact Or.inl (List.mem_cons_of_mem _ h3)
        · exact Or.inr h3

lemma neighborCommunityCounts_keys (nm : NodeMap) (neighbors : List String) :
    ∀ c ∈ (neighborCommunityCounts nm neighbors).map Prod.fst,
      ∃ n, mapGet nm n = some c := by
  unfold neighborCommunityCounts
  have main : ∀ (ns : List String) (acc : List (Nat × Nat)),
      (∀ c ∈ acc.map Prod.fst, ∃ n, mapGet nm n = some c) →
      ∀ c ∈ (ns.foldl (fun acc neighborId =>
          match mapGet nm neighborId with
          | none => acc
          | some c => bumpCount acc c) acc).map Prod.fst, ∃ n, mapGet nm n = some c := by
    intro ns
    induction ns with
    | nil =>
      intro acc h
      exact h
    | cons x xs ih =>
      intro acc h
      simp only [List.foldl_cons]
      cases hx : mapGet nm x with
      | none =>
        apply ih
        exact h
      | some c0 =>
        apply ih
        intro c hc
        rcases bumpCount_keys acc c0 c hc with hmem | rfl
        · exact h c hmem
        · exact ⟨x, hx⟩
  exact main neighbors [] (by simp)

lemma pickBest_fst (node : String) (currentCommunity : Nat) (communities : List Community)
    (nodeMap : NodeMap) (adjacencyMap : AdjMap) (totalEdges : Nat)
    (counts : List (Nat × Nat)) :
    (pickBestCommunity node currentCommunity communities nodeMap adjacencyMap totalEdges
        counts).1 = currentCommunity ∨
    (pickBestCommunity node currentCommunity communities nodeMap adjacencyMap totalEdges
        counts).1 ∈ counts.map Prod.fst := by
  unfold pickBestCommunity
  have main : ∀ (cs : List (Nat × Nat)) (S : List Nat) (acc : Nat × Rat),
      (acc.1 = currentCommunity ∨ acc.1 ∈ S) → (∀ p ∈ cs, p.1 ∈ S) →
      ((cs.foldl (fun best p =>
          if p.1 = currentCommunity then best
          else
            let gain := calculateModularityGain node currentCommunity p.1
              communities nodeMap adjacencyMap totalEdges
            if best.2 < gain then (p.1, gain) else best) acc).1 = currentCommunity ∨
        (cs.foldl (fun best p =>
          if p.1 = currentCommunity then best
          else
            let gain := calculateModularityGain node currentCommunity p.1
              communities nodeMap adjacencyMap totalEdges
            if best.2 < gain then (p.1, gain) else best) acc).1 ∈ S) := by
    intro cs
    induction cs with
    | nil =>
      intro S acc h hsub
      exact h
    | cons p rest ih =>
      intro S acc h hsub
      simp only [List.foldl_cons]
      apply ih _ _ ?_ (fun q hq => hsub q (List.mem_cons_of_mem p hq))
      by_cases hp : p.1 = currentCommunity
      · rw [if_pos hp]
        exact h
      · rw [if_neg hp]
        split
        · exact Or.inr (hsub p (List.mem_cons_self p rest))
        · exact h
  exact main counts (counts.map Prod.fst) (currentCommunity, 0) (Or.inl rfl)
    (fun p hp => List.mem_map_of_mem Prod.fst hp)

/-- One node step of a detection pass preserves the partition invariant. -/
lemma nodeStep_inv (nodeIds : List String)
    (hvalid : ∀ x ∈ nodeIds, x ≠ "") (hnd : nodeIds.Nodup)
    (adjacencyMap : AdjMap) (totalEdges : Nat) (st : DetectState)
    (hInv : PartInv nodeIds st) (node : NetworkNode) :
    PartInv nodeIds (nodeStep adjacencyMap totalEdges st node) := by
  unfold nodeStep
  split
  · exact hInv
  · cases hm : mapGet st.nodeMap node.id with
    | none => exact hInv
    | some cur =>
      dsimp only
      split
      · next hcond =>
        refine moveNode_inv nodeIds hvalid hnd st hInv node.id cur _ hcond.1 hm ?_
        rcases pickBest_fst node.id cur st.communities st.nodeMap adjacencyMap totalEdges
            (neighborCommunityCounts st.nodeMap (adjGet adjacencyMap node.id)) with heq | hmemk
        · exact absurd heq hcond.1
        · exact neighborCommunityCounts_keys st.nodeMap (adjGet adjacencyMap node.id) _ hmemk
      · exact hInv

lemma foldl_nodeStep_inv (nodeIds : List String)
    (hvalid : ∀ x ∈ nodeIds, x ≠ "") (hnd : nodeIds.Nodup)
    (adjacencyMap : AdjMap) (totalEdges : Nat) :
    ∀ (nodes : List NetworkNode) (st : DetectState), PartInv nodeIds st →
      PartInv nodeIds (nodes.foldl (nodeStep adjacencyMap totalEdges) st) := by
  intro nodes
  induction nodes with
  | nil =>
    intro st h
    exact h
  | cons n ns ih =>
    intro st h
    simp only [List.foldl_cons]
    exact ih _ (nodeStep_inv nodeIds hvalid hnd adjacencyMap totalEdges st h n)

lemma detectLoop_inv (nodeIds : List String)
    (hvalid : ∀ x ∈ nodeIds, x ≠ "") (hnd : nodeIds.Nodup)
    (nodes : List NetworkNode) (adjacencyMap : AdjMap) (totalEdges : Nat) :
    ∀ (fuel : Nat) (best : Rat) (st : DetectState), PartInv nodeIds st →
      PartInv nodeIds (detectLoop nodes adjacencyMap totalEdges fuel best st) := by
  intro fuel
  induction fuel with
  | zero =>
    intro best st h
    exact h
  | succ n ih =>
    intro best st h
    unfold detectLoop
    split
    · exact h
    · dsimp only
      have hstep : PartInv nodeIds
          (nodes.foldl (nodeStep adjacencyMap totalEdges) { st with changed := false }) :=
        foldl_nodeStep_inv nodeIds hvalid hnd adjacencyMap totalEdges nodes
          { st with changed := false } h
      split
      · exact hstep
      · exact ih _ _ hstep

end PartitionLemmas3

section PartitionInit

open GraphProcessor

/-- Characterization of the initialization fold of `detectCommunities`
when every id is truthy and ids are fresh for the accumulated node map:
one singleton community and one node-map binding per enumerated node. -/
lemma initFold_char (ps : List (Nat × NetworkNode)) :
    ∀ (st : DetectState),
      (∀ p ∈ ps, p.2.id ≠ "") →
      (∀ p ∈ ps, ∀ q ∈ st.nodeMap, q.1 ≠ p.2.id) →
      ((ps.map (fun p => p.2.id)).Nodup) →
      (ps.foldl (fun st p =>
          if !(jsTruthy p.2.id) then st
          else
            { st with
              nodeMap := mapSet st.nodeMap p.2.id p.1,
              communities := st.communities ++
                [{ id := "community-" ++ toString p.1, size := 1, members := [p.2.id],
                   metrics := { density := 0, cohesion := 0 } }] }) st).communities =
        st.communities ++ ps.map (fun p =>
          ({ id := "community-" ++ toString p.1, size := 1, members := [p.2.id],
             metrics := { density := 0, cohesion := 0 } } : Community))
      ∧ (ps.foldl (fun st p =>
          if !(jsTruthy p.2.id) then st
          else
            { st with
              nodeMap := mapSet st.nodeMap p.2.id p.1,
              communities := st.communities ++
                [{ id := "community-" ++ toString p.1, size := 1, members := [p.2.id],
                   metrics := { density := 0, cohesion := 0 } }] }) st).nodeMap =
        st.nodeMap ++ ps.map (fun p => (p.2.id, p.1)) := by
  induction ps with
  | nil =>
    intro st hv hfresh hndp
    simp
  | cons p rest ih =>
    intro st hv hfresh hndp
    have hvp : jsTruthy p.2.id = true := by
      simp [jsTruthy, hv p (List.mem_cons_self p rest)]
    simp only [List.foldl_cons, hvp, Bool.not_true, Bool.false_eq_true, if_false]
    have hset : mapSet st.nodeMap p.2.id p.1 = st.nodeMap ++ [(p.2.id, p.1)] :=
      mapSet_fresh st.nodeMap p.2.id p.1
        (fun q hq => hfresh p (List.mem_cons_self p rest) q hq)
    have hndrest : ((rest.map (fun p => p.2.id)).Nodup) := (List.nodup_cons.1 (by simpa using hndp)).2
    have hheadfresh : p.2.id ∉ rest.map (fun p => p.2.id) := (List.nodup_cons.1 (by simpa using hndp)).1
    have ihr := ih
      { st with
        nodeMap := mapSet st.nodeMap p.2.id p.1,
        communities := st.communities ++
          [{ id := "community-" ++ toString p.1, size := 1, members := [p.2.id],
             metrics := { density := 0, cohesion := 0 } }] }
      (fun q hq => hv q (List.mem_cons_of_mem p hq))
      (by
        intro r hr q hq
        simp only [hset] at hq
        rcases List.mem_append.1 hq with hq1 | hq1
        · exact hfresh r (List.mem_cons_of_mem p hr) q hq1
        · simp only [List.mem_singleton] at hq1
          subst hq1
          simp only
          intro he
          exact hheadfresh (by
            rw [he]
            exact List.mem_map_of_mem (fun p => p.2.id) hr))
      hndrest
    refine ⟨?_, ?_⟩
    · rw [ihr.1]
      simp [List.append_assoc]
    · rw [ihr.2, hset]
      simp [List.append_assoc]

/-- The initial state under valid distinct ids: singleton communities and
the enumerated node map. -/
lemma initState_char (nodes : List NetworkNode)
    (hv : ∀ n ∈ nodes, n.id ≠ "") (hnd : (nodes.map NetworkNode.id).Nodup) :
    (initState nodes).communities = nodes.enum.map (fun p =>
      ({ id := "community-" ++ toString p.1, size := 1, members := [p.2.id],
         metrics := { density := 0, cohesion := 0 } } : Community))
    ∧ (initState nodes).nodeMap = nodes.enum.map (fun p => (p.2.id, p.1)) := by
  have hmap : nodes.enum.map (fun p => p.2.id) = nodes.map NetworkNode.id := by
    rw [show (fun p : Nat × NetworkNode => p.2.id) =
      (NetworkNode.id ∘ Prod.snd) from rfl]
    rw [← List.map_map, List.enum_map_snd]
  have h := initFold_char nodes.enum
    { communities := [], nodeMap := [], changed := true }
    (by
      intro p hp
      apply hv
      rw [← List.enum_map_snd nodes]
      exact List.mem_map_of_mem Prod.snd hp)
    (by
      intro p hp q hq
      cases hq)
    (by rw [hmap]; exact hnd)
  exact ⟨h.1, h.2⟩

/-- The joined members of the singleton communities are exactly the node
ids. -/
lemma commJoin_init (nodes : List NetworkNode) :
    commJoin (nodes.enum.map (fun p =>
      ({ id := "community-" ++ toString p.1, size := 1, members := [p.2.id],
         metrics := { density := 0, cohesion := 0 } } : Community))) =
      nodes.enum.map (fun p => p.2.id) := by
  generalize nodes.enum = ps
  induction ps with
  | nil => rfl
  | cons p rest ih =>
    simp only [List.map_cons, commJoin, List.flatten_cons] at ih ⊢
    rw [ih]
    rfl

/-- The initial state satisfies the partition invariant. -/
lemma initState_inv (nodes : List NetworkNode)
    (hv : ∀ n ∈ nodes, n.id ≠ "") (hnd : (nodes.map NetworkNode.id).Nodup) :
    PartInv (nodes.map NetworkNode.id) (initState nodes) := by
  obtain ⟨hcs, hnm⟩ := initState_char nodes hv hnd
  have hmap : nodes.enum.map (fun p => p.2.id) = nodes.map NetworkNode.id := by
    rw [show (fun p : Nat × NetworkNode => p.2.id) =
      (NetworkNode.id ∘ Prod.snd) from rfl]
    rw [← List.map_map, List.enum_map_snd]
  refine ⟨?_, ?_, ?_⟩
  · rw [hcs, commJoin_init, hmap]
  · intro c hc
    rw [hcs] at hc
    rcases List.mem_map.1 hc with ⟨p, hp, rfl⟩
    rfl
  · intro id i hmi
    rw [hnm] at hmi
    have hmem := mapGet_some_mem _ _ _ hmi
    rcases List.mem_map.1 hmem with ⟨p, hp, hpe⟩
    have hpid : p.2.id = id := congrArg Prod.fst hpe
    have hpi : p.1 = i := congrArg Prod.snd hpe
    have hget : nodes.enum[p.1]? = some p := by
      rw [List.getElem?_enum]
      rw [List.mem_enum_iff_getElem?.1 hp]
      rfl
    refine ⟨{ id := "community-" ++ toString p.1, size := 1, members := [p.2.id], metrics := { density := 0, cohesion := 0 } }, ?_, ?_⟩
    · rw [hcs]
      rw [← List.get?_eq_getElem?] at hget
      rw [← hpi, List.get?_map, hget]
      rfl
    · simp only [List.mem_singleton]
      exact hpid.symm
end PartitionInit

section PartitionFinal

open GraphProcessor

/-- The metrics pass keeps every member list, and dropping empty
communities (`size > 0` filter) drops only empty member lists, so the
joined members are unchanged. -/
lemma commJoin_final (g : NetworkData) (adj : AdjMap) :
    ∀ (l : List Community), (∀ c ∈ l, c.size = c.members.length) →
      commJoin ((l.filter (fun c => 0 < c.size)).map (communityMetrics g adj)) = commJoin l := by
  intro l
  induction l with
  | nil =>
    intro h
    rfl
  | cons c cs ih =>
    intro h
    have hc := h c (List.mem_cons_self c cs)
    have ihr := ih (fun d hd => h d (List.mem_cons_of_mem c hd))
    by_cases hs : 0 < c.size
    · rw [List.filter_cons, if_pos (by simpa using hs)]
      simp only [List.map_cons, commJoin, List.flatten_cons] at ihr ⊢
      rw [ihr]
      rfl
    · rw [List.filter_cons, if_neg (by simpa using hs)]
      have hm : c.members = [] := by
        apply List.length_eq_zero.1
        omega
      simp only [List.map_cons, commJoin, List.flatten_cons] at ihr ⊢
      rw [ihr, hm]
      rfl

end PartitionFinal

/-- **C2 counterexample.** A nonempty graph with no edges: detection is
skipped entirely and the empty community list is returned, so the node
`"a"` belongs to no community's member list — the returned communities do
not partition the node set of every input graph, contrary to the claim. -/
theorem C2_counterexample :
    GraphProcessor.detectCommunities gSingle = []
    ∧ "a" ∈ gSingle.nodes.map NetworkNode.id
    ∧ ¬ ∃ c ∈ GraphProcessor.detectCommunities gSingle, "a" ∈ c.members := by
  refine ⟨rfl, by decide, ?_⟩
  rintro ⟨c, hc, -⟩
  cases hc

/-- **C2 (amended).** For every graph with at least one node and at least
one edge whose node ids are all present (truthy) and pairwise distinct,
the communities returned by `detectCommunities` partition the graph's node
set: the concatenation of all member lists is a duplicate-free permutation
of the node ids, so every node belongs to exactly one returned community's
member list, no node appears in two communities or twice in one, and their
union is the node set. -/
theorem C2_communities_partition (g : NetworkData)
    (hn : g.nodes ≠ []) (he : g.edges ≠ [])
    (hvalid : ∀ n ∈ g.nodes, n.id ≠ "")
    (hnd : (g.nodes.map NetworkNode.id).Nodup) :
    (commJoin (GraphProcessor.detectCommunities g)).Perm (g.nodes.map NetworkNode.id)
    ∧ (commJoin (GraphProcessor.detectCommunities g)).Nodup := by
  have h1 : g.nodes.isEmpty = false := by
    cases hG : g.nodes with
    | nil => exact absurd hG hn
    | cons x xs => rfl
  have h2 : g.edges.isEmpty = false := by
    cases hG : g.edges with
    | nil => exact absurd hG he
    | cons x xs => rfl
  have hvalid2 : ∀ x ∈ g.nodes.map NetworkNode.id, x ≠ "" := by
    intro x hx
    rcases List.mem_map.1 hx with ⟨n, hn, rfl⟩
    exact hvalid n hn
  have hinv0 := initState_inv g.nodes hvalid hnd
  have hinvF := detectLoop_inv (g.nodes.map NetworkNode.id) hvalid2 hnd g.nodes
    (GraphProcessor.buildAdjacencyMap g.edges) g.edges.length GraphProcessor.MAX_ITERATIONS
    (GraphProcessor.calculateModularity (GraphProcessor.initState g.nodes).communities
      (GraphProcessor.initState g.nodes).nodeMap
      (GraphProcessor.buildAdjacencyMap g.edges) g.edges.length)
    (GraphProcessor.initState g.nodes) hinv0
  have hfin := commJoin_final g (GraphProcessor.buildAdjacencyMap g.edges) _ hinvF.2.1
  have hmain : commJoin (GraphProcessor.detectCommunities g) =
      commJoin (GraphProcessor.detectLoop g.nodes (GraphProcessor.buildAdjacencyMap g.edges)
        g.edges.length GraphProcessor.MAX_ITERATIONS
        (GraphProcessor.calculateModularity (GraphProcessor.initState g.nodes).communities
          (GraphProcessor.initState g.nodes).nodeMap
          (GraphProcessor.buildAdjacencyMap g.edges) g.edges.length)
        (GraphProcessor.initState g.nodes)).communities := by
    unfold GraphProcessor.detectCommunities
    rw [h1, h2]
    dsimp only
    exact hfin
  rw [hmain]
  exact ⟨hinvF.1, (List.Perm.nodup_iff hinvF.1).2 hnd⟩

/-- **C2 witness.** The partition at the two-node graph joined by one
mutual edge. -/
theorem C2_witness :
    (commJoin (GraphProcessor.detectCommunities gPair)).Perm (gPair.nodes.map NetworkNode.id)
    ∧ (commJoin (GraphProcessor.detectCommunities gPair)).Nodup :=
  C2_communities_partition gPair (by decide) (by decide) (by decide) (by decide)
